import Mathlib

/-!
Verification development for `threaded_assess_alignment.py` (IGS/ISCA).

The Python source is shallowly embedded: pure functions become Lean
functions, exceptions become `Except PyErr` / error components, Python
`float` values become `ℚ` (identities and scores in this program are
decimal literals or ratios of small integers, so exact rational
arithmetic models them; the textual rendering of Python float `repr` is
abstracted by `fmtQ`), and filesystem contents are passed in as data
(`SeqFile`, an `Option` directory listing).  Machine-level concurrency
(the multiprocessing pool) is modelled sequentially: every dispatched
worker runs to completion and the orchestrator's `job.get()` loop
re-raises the first worker exception, which is the observable protocol
of `main`.
-/

/-- Python exception kinds that the script can raise.  Only the kind is
tracked, not the message. -/
inductive PyErr where
  | attributeError
  | valueError
  | zeroDivisionError
  | nameError
  | indexError
  | fileNotFoundError
deriving DecidableEq, Repr

deriving instance DecidableEq for Except

/-- Whitespace class of Python's regex `\s` (space, tab, newline,
carriage return, vertical tab, form feed). -/
def wsChar (c : Char) : Bool :=
  c = ' ' || c = '\t' || c = '\n' || c = '\r' || c = '\x0b' || c = '\x0c'

/-- `startsWithL s pat` : the char list `s` starts with `pat`. -/
def startsWithL : List Char → List Char → Bool
  | _, [] => true
  | [], _ :: _ => false
  | c :: cs, d :: ds => c = d && startsWithL cs ds

/-- Python `s.startswith(pat)` on strings, via the char-list test. -/
def startsWithS (s pat : String) : Bool := startsWithL s.toList pat.toList

/-- Python `s.endswith(pat)` on strings, via the char-list test. -/
def endsWithS (s pat : String) : Bool := startsWithL s.toList.reverse pat.toList.reverse

/-- Python's substring containment `pat in s`, on char lists. -/
def containsPat (s pat : List Char) : Bool :=
  match s with
  | [] => startsWithL [] pat
  | c :: cs => startsWithL (c :: cs) pat || containsPat cs pat

/-- Python lexicographic `<` on strings (by code point; a proper prefix
is smaller), used because `max()` on a list of Python `str` compares
lexicographically. -/
def lexLt : List Char → List Char → Bool
  | [], [] => false
  | [], _ :: _ => true
  | _ :: _, [] => false
  | c :: cs, d :: ds => if c < d then true else if d < c then false else lexLt cs ds

/-- Lexicographic `<` lifted to `String`. -/
def strLt (s t : String) : Bool := lexLt s.toList t.toList

/-- Numeric `<` on `ℚ` as a Bool, modelling Python float comparison. -/
def ratLt (p q : ℚ) : Bool := decide (p < q)

/-- Python `max(lst)` starting from a first element: keeps the current
value unless a strictly greater one appears, so the first occurrence of
the maximum is returned. -/
def pyMaxGo {α : Type} (lt : α → α → Bool) (m : α) : List α → α
  | [] => m
  | x :: xs => pyMaxGo lt (if lt m x then x else m) xs

/-- Python `max(lst)`; `none` models the `ValueError` on an empty list. -/
def pyMax {α : Type} (lt : α → α → Bool) : List α → Option α
  | [] => none
  | x :: xs => some (pyMaxGo lt x xs)

/-- Python `lst.index(v)`: index of the first element equal to `v`;
`none` models the `ValueError` when `v` is absent. -/
def pyIndexOf {α : Type} [DecidableEq α] : List α → α → Option ℕ
  | [], _ => none
  | x :: xs, v => if x = v then some 0 else (pyIndexOf xs v).map (· + 1)

/-- Two-digit rendering of a value below 100. -/
def pad2 (n : ℕ) : String := if n < 10 then "0" ++ toString n else toString n

/-- Python `"{0:.2f}".format(x)` for non-negative `x`, on the exact
rational value (the double-precision intermediate of CPython is not
modelled).  The hundredths are rounded to the nearest integer with ties
to even, computed on `num`/`den` directly so that the kernel can
evaluate it: `f` is the floor of `q*100` and `r2` twice the remainder. -/
def fmt2 (q : ℚ) : String :=
  let num100 : ℤ := q.num * 100
  let f : ℤ := num100 / (q.den : ℤ)
  let r2 : ℤ := (num100 % (q.den : ℤ)) * 2
  let n : ℕ := (if r2 < (q.den : ℤ) then f
    else if (q.den : ℤ) < r2 then f + 1
    else if f % 2 = 0 then f else f + 1).toNat
  toString (n / 100) ++ "." ++ pad2 (n % 100)

/-- Value of a digit list, most significant first. -/
def natOfDigits : List Char → ℕ :=
  List.foldl (fun n c => 10 * n + (c.toNat - 48)) 0

/-- The rational value of the decimal numeral `ip.fp` with `k`
fractional digits: `ip + fp / 10^k`, built with `Rat.divInt` so that
the kernel can evaluate it. -/
def qofDec (ip fp k : ℕ) : ℚ := Rat.divInt (ip * 10 ^ k + fp) (10 ^ k)

/-- Simple decimal parser modelling Python `float(s)` on the score
strings this program feeds it: optional sign, digits, optional
fractional part.  `none` models the `ValueError` on anything else (the
full `float()` grammar - exponents, `inf`, surrounding whitespace - is
not exercised by EMBOSS score lines). -/
def parseFloat (s : String) : Option ℚ :=
  let cs := s.toList
  let core : List Char → Option ℚ := fun l =>
    let intPart := l.takeWhile (fun c => c.isDigit)
    let rest := l.drop intPart.length
    if intPart = [] then none
    else match rest with
      | [] => some (qofDec (natOfDigits intPart) 0 0)
      | '.' :: fr =>
        if fr ≠ [] ∧ fr.all (fun c => c.isDigit) then
          some (qofDec (natOfDigits intPart) (natOfDigits fr) fr.length)
        else none
      | _ => none
  match cs with
  | '-' :: l => (core l).map (fun q => Rat.neg q)
  | '+' :: l => core l
  | l => core l

/-- Capture of `re.search(r'#\sScore:\s(.*)$', line).group(1)` on a line
already known to start with `# Score:`.  The search is modelled anchored
at position 0 (the line starts with the marker, so the leading `#\sScore:`
matches there); the second `\s` consumes one whitespace character - the
line-terminating newline, stripped in this model, plays that role when
nothing follows the colon - and the capture is the remainder. -/
def scoreCapture (line : String) : Option String :=
  let r := line.drop 8
  match r.toList with
  | [] => some ""
  | c :: cs => if wsChar c then some (String.mk cs) else none

/-- Parser for the tail of an identity line after `# Identity:`,
modelling `\s+\d+/\d+\s\(\s?(\d+\.\d+)%\)$`: returns the captured
percentage as an exact rational. -/
def idTailVal (cs : List Char) : Option ℚ :=
  let ws := cs.takeWhile wsChar
  let cs1 := cs.drop ws.length
  if ws = [] then none else
  let d1 := cs1.takeWhile (fun c => c.isDigit)
  let cs2 := cs1.drop d1.length
  if d1 = [] then none else
  match cs2 with
  | '/' :: cs3 =>
    let d2 := cs3.takeWhile (fun c => c.isDigit)
    let cs4 := cs3.drop d2.length
    if d2 = [] then none else
    match cs4 with
    | w :: '(' :: cs5 =>
      if wsChar w = false then none else
      let cs6 : List Char := match cs5 with
        | w2 :: rest => if wsChar w2 then rest else cs5
        | [] => cs5
      let d3 := cs6.takeWhile (fun c => c.isDigit)
      let cs7 := cs6.drop d3.length
      if d3 = [] then none else
      match cs7 with
      | '.' :: cs8 =>
        let d4 := cs8.takeWhile (fun c => c.isDigit)
        let cs9 := cs8.drop d4.length
        if d4 = [] then none else
        match cs9 with
        | ['%', ')'] => some (qofDec (natOfDigits d3) (natOfDigits d4) d4.length)
        | _ => none
      | _ => none
    | _ => none
  | _ => none

/-- Capture of the identity percentage from a line already known to
start with `# Identity:` (anchored model, as for `scoreCapture`). -/
def idCapture (line : String) : Option ℚ := idTailVal (line.drop 11).toList

/-- The `stats` dict of `parse_alignment`: both entries are initialised
to the integer `0`; `none` models the untouched default (the workers
convert a default score with `float(0)` and keep a default identity as
numeric `0`). -/
structure AlnStats where
  score : Option String
  id : Option ℚ
deriving DecidableEq, Repr

/-- The line loop of `parse_alignment`: a `# Score:` line overwrites the
score capture, a `# Identity:` line overwrites the identity capture, a
line starting `a.trimmed` breaks; a marker line whose tail does not
match its regex raises (`.group(1)` on `None` is an `AttributeError`). -/
def parseLines : List String → AlnStats → Except PyErr AlnStats
  | [], st => Except.ok st
  | l :: ls, st =>
    if startsWithS l "# Score:" then
      match scoreCapture l with
      | none => Except.error PyErr.attributeError
      | some s => parseLines ls { st with score := some s }
    else if startsWithS l "# Identity:" then
      match idCapture l with
      | none => Except.error PyErr.attributeError
      | some q => parseLines ls { st with id := some q }
    else if startsWithS l "a.trimmed" then Except.ok st
    else parseLines ls st

/-- `parse_alignment` (source lines 337-351), over the report's text
lines with trailing newlines stripped. -/
def parse_alignment (lines : List String) : Except PyErr AlnStats :=
  parseLines lines ⟨none, none⟩

/-- Python `s.lstrip('-')` on a char list. -/
def gapStripLeft (l : List Char) : List Char := l.dropWhile (fun c => c == '-')

/-- Python `s.rstrip('-')` on a char list. -/
def gapStripRight (l : List Char) : List Char := (l.reverse.dropWhile (fun c => c == '-')).reverse

/-- Body of `find_ref_len` (source lines 372-385) for non-empty inputs:
trim `a`'s start by `b`'s leading gap run when `a` starts with a base
and `b` with a gap, symmetrically at the end (on the already
left-trimmed string, via a negative slice bound), then count the
non-gap characters left. -/
def frlCore (a b : List Char) : ℕ :=
  let t1 := if a.head? ≠ some '-' ∧ b.head? = some '-' then a.drop (b.length - (gapStripLeft b).length) else a
  let t2 := if a.getLast? ≠ some '-' ∧ b.getLast? = some '-' then t1.take (t1.length - (b.length - (gapStripRight b).length)) else t1
  (t2.filter (fun c => c != '-')).length

/-- `find_ref_len`: `none` models the `IndexError` of `a[0]` / `b[0]`
on an empty argument. -/
def find_ref_len (a b : List Char) : Option ℕ :=
  if a = [] ∨ b = [] then none else some (frlCore a b)

/-- Reference-covered length as the specification words it: remove from
`a`'s start as many characters as `b`'s leading gap run when `a` starts
with a real base and `b` starts with a gap, do the symmetric removal at
the end, then strip all remaining gap characters. -/
def refCoveredSpec (a b : List Char) : ℕ :=
  let s1 := if a.head? ≠ some '-' ∧ b.head? = some '-' then a.drop (b.takeWhile (fun c => c == '-')).length else a
  let s2 := if a.getLast? ≠ some '-' ∧ b.getLast? = some '-' then s1.take (s1.length - (b.reverse.takeWhile (fun c => c == '-')).length) else s1
  (s2.filter (fun c => c != '-')).length

/-- One iteration of the counting loop of `calculate_exact_alignment`:
the pair `(total, perfect_match)`. -/
def exactStep (tp : ℕ × ℕ) (p : Char × Char) : ℕ × ℕ :=
  if p.1 ≠ '-' then (if p.1 = p.2 then (tp.1 + 1, tp.2 + 1) else (tp.1 + 1, tp.2)) else tp

/-- `calculate_exact_alignment` (source lines 355-368): iterate over
`zip(aseq, bseq)`, count reference non-gap positions and exact matches,
return `"{0:.2f}".format(perfect_match/total*100)`; dividing by a zero
total raises. -/
def calculate_exact_alignment (a b : List Char) : Except PyErr String :=
  let tp := (a.zip b).foldl exactStep (0, 0)
  if tp.1 = 0 then Except.error PyErr.zeroDivisionError
  else Except.ok (fmt2 (Rat.divInt ((tp.2 : ℤ) * 100) (tp.1 : ℤ)))

/-- Count of non-gap positions of the reference, as the spec words it. -/
def specTotal (a : List Char) : ℕ := a.countP (fun c => c != '-')

/-- Count of positions where the reference is not a gap and matches the
assembled sequence exactly, as the spec words it. -/
def specMatches (a b : List Char) : ℕ :=
  (a.zip b).countP (fun p => p.1 != '-' && p.1 == p.2)

/-- Gap-free identity as a percentage, per the spec. -/
def specGapFree (a b : List Char) : ℚ :=
  (specMatches a b : ℚ) / (specTotal a : ℚ) * 100

/-- One alignment report file as the workers see it: its name, its
`os.stat` size, the sequences `AlignIO.read` yields for it (`none`
models the `ValueError` Biopython raises on an unreadable report), and
its text lines (newlines stripped) as `parse_alignment` reads them. -/
structure SeqFile where
  name : String
  size : ℕ
  alignio : Option (List (List Char))
  lines : List String

/-- One candidate's scalar data, in the order the worker appends it to
its parallel lists. -/
structure AlnCand where
  iso : String
  score : ℚ
  idv : ℚ
  cov : ℚ
  blen : ℕ
  refLen : ℕ
  path : String
deriving DecidableEq, Repr

/-- `float(stats['score'])`: the untouched default `0` converts to `0`,
a captured string goes through `float()`. -/
def floatOfScore : Option String → Except PyErr ℚ
  | none => Except.ok 0
  | some s => match parseFloat s with
    | none => Except.error PyErr.valueError
    | some q => Except.ok q

/-- The `for sequence in alignment` assignment of both workers: the
first sequence landing while `a` is the empty string goes to `a`, every
later one overwrites `b`. -/
def assignAB (seqs : List (List Char)) : List Char × List Char :=
  seqs.foldl (fun ab s => if ab.1 = [] then (s, ab.2) else (ab.1, s)) ([], [])

/-- `spades_worker` retains a file when its name ends with the report
suffix and, if a priority prefix is set, starts with it (source lines
105-109). -/
def retainedSp (p : String) (f : SeqFile) : Bool :=
  endsWithS f.name ".trimmed_align.txt" && (p == "" || startsWithS f.name p)

/-- `scaffold_worker` additionally requires the kind marker `Scaffold`
in the name (source line 214). -/
def retainedScaf (p : String) (f : SeqFile) : Bool :=
  containsPat f.name.toList "Scaffold".toList && endsWithS f.name ".trimmed_align.txt"
    && (p == "" || startsWithS f.name p)

/-- A scaffold file that is retained and survives the zero-length skip
(source line 226): the scanner's full retention per the spec. -/
def scafKept (p : String) (f : SeqFile) : Bool :=
  retainedScaf p f && decide (f.size ≠ 0)

/-- After the sequence loop of `spades_worker` (lines 120-130): when
both sequences are non-empty, `find_ref_len` runs and both are
gap-stripped; otherwise the `ref_align_len` name stays unbound (`none`).
A later file never observes a stale binding: reaching the `ref_len`
append with the block unexecuted is impossible because the coverage
division fails first on an empty `b` (see `spadesBody`). -/
def spadesABR (ab : List Char × List Char) : List Char × List Char × Option ℕ :=
  if ab.1 ≠ [] ∧ ab.2 ≠ [] then
    (ab.1.filter (fun c => c != '-'), ab.2.filter (fun c => c != '-'), some (frlCore ab.1 ab.2))
  else (ab.1, ab.2, none)

/-- Processing of one retained file by `spades_worker` (lines 111-141),
up to the point where one entry has been appended to every list; the
error cases follow the source order: `AlignIO.read`, `parse_alignment`,
`float(score)`, the coverage division, the `ref_align_len` lookup. -/
def spadesBody (dir : String) (f : SeqFile) : Except PyErr AlnCand :=
  match f.alignio with
  | none => Except.error PyErr.valueError
  | some seqs =>
    match spadesABR (assignAB seqs) with
    | (a, b, refO) =>
      match parse_alignment f.lines with
      | Except.error e => Except.error e
      | Except.ok stats =>
        match floatOfScore stats.score with
        | Except.error e => Except.error e
        | Except.ok sc =>
          if b.length = 0 then Except.error PyErr.zeroDivisionError
          else match refO with
          | none => Except.error PyErr.nameError
          | some r =>
            Except.ok ⟨String.mk (f.name.toList.takeWhile (fun c => c != '.')), sc, stats.id.getD 0,
              Rat.divInt (a.length : ℤ) (b.length : ℤ), b.length, r, dir ++ "/" ++ f.name⟩

/-- Outcome of one directory entry for `spades_worker`. -/
inductive SpOut where
  | notRetained
  | failed (e : PyErr)
  | found (c : AlnCand)

/-- One directory entry of the `spades_worker` scan loop. -/
def spadesProc (dir p : String) (f : SeqFile) : SpOut :=
  if retainedSp p f then
    match spadesBody dir f with
    | Except.ok c => SpOut.found c
    | Except.error e => SpOut.failed e
  else SpOut.notRetained

/-- The candidate a file contributes, if any. -/
def spadesCandOf (dir p : String) (f : SeqFile) : Option AlnCand :=
  match spadesProc dir p f with
  | SpOut.found c => some c
  | _ => none

/-- The parallel per-locus lists of `spades_worker` (line 94) plus the
`aligned` flag.  Mid-file exceptions abort the worker before anything
is emitted, so the partially appended state of a failing file is never
observable and a file's appends are modelled atomically. -/
structure SpSt where
  isos : List String
  scores : List ℚ
  ids : List ℚ
  covs : List ℚ
  lens : List ℕ
  refLens : List ℕ
  paths : List String
  aligned : Bool
deriving DecidableEq, Repr

/-- Fresh per-locus state. -/
def spInit : SpSt := ⟨[], [], [], [], [], [], [], false⟩

/-- Append one candidate to every list (lines 135-141). -/
def spPush (st : SpSt) (c : AlnCand) : SpSt :=
  ⟨st.isos ++ [c.iso], st.scores ++ [c.score], st.ids ++ [c.idv], st.covs ++ [c.cov],
    st.lens ++ [c.blen], st.refLens ++ [c.refLen], st.paths ++ [c.path], true⟩

/-- One step of the `spades_worker` directory loop. -/
def spadesStep (dir p : String) (st : SpSt) (f : SeqFile) : Except PyErr SpSt :=
  match spadesProc dir p f with
  | SpOut.notRetained => Except.ok st
  | SpOut.failed e => Except.error e
  | SpOut.found c => Except.ok (spPush st c)

/-- The `spades_worker` directory loop (line 102). -/
def spadesScan (dir p : String) : SpSt → List SeqFile → Except PyErr SpSt
  | st, [] => Except.ok st
  | st, f :: fs =>
    match spadesStep dir p st f with
    | Except.error e => Except.error e
    | Except.ok st2 => spadesScan dir p st2 fs

/-- `"{0}\t...\t{5}\n".format(...)`: a six-field record line. -/
def record6 (f1 f2 f3 f4 f5 f6 : String) : String :=
  String.intercalate "\t" [f1, f2, f3, f4, f5, f6] ++ "\n"

/-- `"{0}\t...\t{6}\n".format(...)`: a seven-field record line. -/
def record7 (f1 f2 f3 f4 f5 f6 f7 : String) : String :=
  String.intercalate "\t" [f1, f2, f3, f4, f5, f6, f7] ++ "\n"

/-- Rendering of a Python numeric value into a record field.  The digit
string of CPython float `repr` is abstracted: integral rationals render
as `n.0` like floats, others as `num/den`; no claim depends on the
digits. -/
def fmtQ (q : ℚ) : String :=
  if q.den = 1 then toString q.num ++ ".0" else toString q.num ++ "/" ++ toString q.den

/-- The record line `spades_worker` emits for index-aligned fields. -/
def spRecord (c : AlnCand) : String :=
  record6 (fmtQ c.idv) (fmtQ c.cov) (toString c.blen) c.iso (toString c.refLen) c.path

/-- `best = ids.index(max(ids))` (line 150). -/
def spadesBestIdx (st : SpSt) : Option ℕ :=
  match pyMax ratLt st.ids with
  | none => none
  | some m => pyIndexOf st.ids m

/-- The `best_only == 'yes'` branch of `spades_worker` (lines 149-170):
`max`/`index` on an empty list raise `ValueError`; the six list lookups
can raise `IndexError`; otherwise exactly one record is enqueued. -/
def spadesBest (st : SpSt) : List String × Option PyErr :=
  match spadesBestIdx st with
  | none => ([], some PyErr.valueError)
  | some best =>
    match st.isos.get? best, st.ids.get? best, st.covs.get? best, st.lens.get? best,
      st.refLens.get? best, st.paths.get? best with
    | some iso, some idv, some cov, some len, some ref, some pa =>
      ([record6 (fmtQ idv) (fmtQ cov) (toString len) iso (toString ref) pa], none)
    | _, _, _, _, _, _ => ([], some PyErr.indexError)

/-- The `best_only == 'no'` loop of `spades_worker` (lines 172-174) over
an explicit index list: records enqueued before an out-of-range lookup
stay enqueued. -/
def spadesEmitIdx (st : SpSt) : List ℕ → List String × Option PyErr
  | [] => ([], none)
  | x :: xs =>
    match st.ids.get? x, st.covs.get? x, st.lens.get? x, st.isos.get? x,
      st.refLens.get? x, st.paths.get? x with
    | some idv, some cov, some len, some iso, some ref, some pa =>
      let rest := spadesEmitIdx st xs
      (record6 (fmtQ idv) (fmtQ cov) (toString len) iso (toString ref) pa :: rest.1, rest.2)
    | _, _, _, _, _, _ => ([], some PyErr.indexError)

/-- `spades_worker` (source lines 93-188).  The first component is the
sequence of messages the worker `queue.put`s, the second the exception
it dies with, if any; a `none` directory listing models the
`FileNotFoundError` of `os.listdir` on a missing locus directory. -/
def spades_worker (dirList : Option (List SeqFile)) (dir p bo : String) :
    List String × Option PyErr :=
  match dirList with
  | none => ([], some PyErr.fileNotFoundError)
  | some files =>
    match spadesScan dir p spInit files with
    | Except.error e => ([], some e)
    | Except.ok st =>
      if st.aligned = false then ([], none)
      else if bo = "yes" then spadesBest st
      else if bo = "no" then spadesEmitIdx st (List.range st.paths.length)
      else ([], none)

/-- State of the `for sequence in alignment` loop of `scaffold_worker`
(lines 235-253): the current `a` and `b`, the `ref_align_len` binding,
and the `nogap_id` entries appended so far by this file. -/
structure ScLoop where
  a : List Char
  b : List Char
  ref : Option ℕ
  ngs : List String
deriving DecidableEq, Repr

/-- One iteration of the scaffold sequence loop: assign the sequence to
`a` or `b`, then - inside the loop, unlike `spades_worker` - when both
are non-empty compute `find_ref_len`, append one gap-free identity
(whose zero-total division can raise), and strip the gaps from both. -/
def scafSeqStep (st : ScLoop) (s : List Char) : Except PyErr ScLoop :=
  let st1 := if st.a = [] then { st with a := s } else { st with b := s }
  if st1.a ≠ [] ∧ st1.b ≠ [] then
    match calculate_exact_alignment st1.a st1.b with
    | Except.error e => Except.error e
    | Except.ok g =>
      Except.ok ⟨st1.a.filter (fun c => c != '-'), st1.b.filter (fun c => c != '-'),
        some (frlCore st1.a st1.b), st1.ngs ++ [g]⟩
  else Except.ok st1

/-- The scaffold sequence loop over all sequences of one report. -/
def scafSeqLoop : ScLoop → List (List Char) → Except PyErr ScLoop
  | st, [] => Except.ok st
  | st, s :: ss =>
    match scafSeqStep st s with
    | Except.error e => Except.error e
    | Except.ok st2 => scafSeqLoop st2 ss

/-- Processing of one kept (retained, non-empty) file by
`scaffold_worker` (lines 222-264): the gap-free identities it appends
and the one entry destined for each of the other seven lists.  As in
`spadesBody`, the `ref_align_len` name is unbound exactly when the
in-loop block never ran, and then the coverage division on the empty
`b` fails first, so a stale binding from an earlier file is never
observable. -/
def scafBody (dir : String) (f : SeqFile) : Except PyErr (List String × AlnCand) :=
  match f.alignio with
  | none => Except.error PyErr.valueError
  | some seqs =>
    match scafSeqLoop ⟨[], [], none, []⟩ seqs with
    | Except.error e => Except.error e
    | Except.ok lp =>
      match parse_alignment f.lines with
      | Except.error e => Except.error e
      | Except.ok stats =>
        match floatOfScore stats.score with
        | Except.error e => Except.error e
        | Except.ok sc =>
          if lp.b.length = 0 then Except.error PyErr.zeroDivisionError
          else match lp.ref with
          | none => Except.error PyErr.nameError
          | some r =>
            Except.ok (lp.ngs, ⟨String.mk (f.name.toList.takeWhile (fun c => c != '.')), sc, stats.id.getD 0,
              Rat.divInt (lp.a.length : ℤ) (lp.b.length : ℤ), lp.b.length, r, dir ++ "/" ++ f.name⟩)

/-- Outcome of one directory entry for `scaffold_worker`: a zero-length
retained file is skipped after the `aligned` flag is already set
(lines 220-228). -/
inductive ScOut where
  | notRetained
  | skippedEmpty
  | failed (e : PyErr)
  | found (ngs : List String) (c : AlnCand)

/-- One directory entry of the `scaffold_worker` scan loop. -/
def scafProc (dir p : String) (f : SeqFile) : ScOut :=
  if retainedScaf p f then
    if f.size = 0 then ScOut.skippedEmpty
    else
      match scafBody dir f with
      | Except.ok pr => ScOut.found pr.1 pr.2
      | Except.error e => ScOut.failed e
  else ScOut.notRetained

/-- The contribution of a file, if any: its `nogap_id` entries and its
entry for the other seven lists. -/
def scafCandOf (dir p : String) (f : SeqFile) : Option (List String × AlnCand) :=
  match scafProc dir p f with
  | ScOut.found ngs c => some (ngs, c)
  | _ => none

/-- The parallel per-locus lists of `scaffold_worker` (line 203) plus
the `aligned` flag. -/
structure ScSt where
  isos : List String
  scores : List ℚ
  ids : List ℚ
  covs : List ℚ
  lens : List ℕ
  refLens : List ℕ
  paths : List String
  nogapIds : List String
  aligned : Bool
deriving DecidableEq, Repr

/-- Fresh per-locus state. -/
def scInit : ScSt := ⟨[], [], [], [], [], [], [], [], false⟩

/-- Append one file's contribution: the gap-free identities were already
appended inside the sequence loop, the other seven entries follow
(lines 258-264). -/
def scPush (st : ScSt) (ngs : List String) (c : AlnCand) : ScSt :=
  ⟨st.isos ++ [c.iso], st.scores ++ [c.score], st.ids ++ [c.idv], st.covs ++ [c.cov],
    st.lens ++ [c.blen], st.refLens ++ [c.refLen], st.paths ++ [c.path],
    st.nogapIds ++ ngs, true⟩

/-- One step of the `scaffold_worker` directory loop. -/
def scafStep (dir p : String) (st : ScSt) (f : SeqFile) : Except PyErr ScSt :=
  match scafProc dir p f with
  | ScOut.notRetained => Except.ok st
  | ScOut.skippedEmpty => Except.ok { st with aligned := true }
  | ScOut.failed e => Except.error e
  | ScOut.found ngs c => Except.ok (scPush st ngs c)

/-- The `scaffold_worker` directory loop (line 211). -/
def scafScan (dir p : String) : ScSt → List SeqFile → Except PyErr ScSt
  | st, [] => Except.ok st
  | st, f :: fs =>
    match scafStep dir p st f with
    | Except.error e => Except.error e
    | Except.ok st2 => scafScan dir p st2 fs

/-- `best = nogap_id.index(max(nogap_id))` (line 275): `max` over a
list of Python strings, hence lexicographic. -/
def scafBestIdx (st : ScSt) : Option ℕ :=
  match pyMax strLt st.nogapIds with
  | none => none
  | some m => pyIndexOf st.nogapIds m

/-- The record line `scaffold_worker` emits for index-aligned fields
with gap-free identity `g`. -/
def scRecord (g : String) (c : AlnCand) : String :=
  record7 (fmtQ c.idv) (fmtQ c.cov) (toString c.blen) c.iso (toString c.refLen) c.path g

/-- The `best_only == 'yes'` branch of `scaffold_worker`
(lines 272-296). -/
def scafBest (st : ScSt) : List String × Option PyErr :=
  match scafBestIdx st with
  | none => ([], some PyErr.valueError)
  | some best =>
    match st.isos.get? best, st.ids.get? best, st.covs.get? best, st.lens.get? best,
      st.refLens.get? best, st.paths.get? best, st.nogapIds.get? best with
    | some iso, some idv, some cov, some len, some ref, some pa, some g =>
      ([record7 (fmtQ idv) (fmtQ cov) (toString len) iso (toString ref) pa g], none)
    | _, _, _, _, _, _, _ => ([], some PyErr.indexError)

/-- The `best_only == 'no'` loop of `scaffold_worker` (lines 298-300). -/
def scafEmitIdx (st : ScSt) : List ℕ → List String × Option PyErr
  | [] => ([], none)
  | x :: xs =>
    match st.ids.get? x, st.covs.get? x, st.lens.get? x, st.isos.get? x,
      st.refLens.get? x, st.paths.get? x, st.nogapIds.get? x with
    | some idv, some cov, some len, some iso, some ref, some pa, some g =>
      let rest := scafEmitIdx st xs
      (record7 (fmtQ idv) (fmtQ cov) (toString len) iso (toString ref) pa g :: rest.1, rest.2)
    | _, _, _, _, _, _, _ => ([], some PyErr.indexError)

/-- `scaffold_worker` (source lines 202-314). -/
def scaffold_worker (dirList : Option (List SeqFile)) (dir p bo : String) :
    List String × Option PyErr :=
  match dirList with
  | none => ([], some PyErr.fileNotFoundError)
  | some files =>
    match scafScan dir p scInit files with
    | Except.error e => ([], some e)
    | Except.ok st =>
      if st.aligned = false then ([], none)
      else if bo = "yes" then scafBest st
      else if bo = "no" then scafEmitIdx st (List.range st.paths.length)
      else ([], none)

/-- The writer loop of `listener` (lines 323-331) over the finite
sequence of messages it will receive: it appends every message to the
output until the first message equal to the sentinel string `stop`,
then terminates. -/
def listener : List String → List String
  | [] => []
  | m :: ms => if m = "stop" then [] else m :: listener ms

/-- `line.rstrip()` of the map-reading loop (line 66). -/
def pyRstrip (s : String) : String :=
  String.mk ((s.toList.reverse.dropWhile wsChar).reverse)

/-- First tab-separated field of a map line: the locus id (lines 66-68). -/
def firstField (line : String) : String :=
  String.mk ((pyRstrip line).toList.takeWhile (fun c => c != '\t'))

/-- The dispatch loop of `main` (lines 64-75), with the filesystem
passed in as a map from locus id to directory listing.  The pool runs
every dispatched worker; the list collects each worker's messages and
terminal exception in dispatch order (cross-locus queue interleaving is
arbitrary in reality and no claim depends on it). -/
def runJobs (fsys : String → Option (List SeqFile))
    (alignPath p bo assmbType : String) (mapLines : List String) :
    List (List String × Option PyErr) :=
  mapLines.filterMap (fun line =>
    let locus := firstField line
    let dir := alignPath ++ "/" ++ locus
    if assmbType = "SPAdes" then some (spades_worker (fsys locus) dir p bo)
    else if assmbType = "HGA" then some (scaffold_worker (fsys locus) dir p bo)
    else none)

/-- `main` reaches `q.put('stop')` (line 81) only if every `job.get()`
(line 79) returns without re-raising a worker exception. -/
def stopEnqueued (results : List (List String × Option PyErr)) : Bool :=
  results.all (fun r => r.2 = none)

/-- The metadata lines `parse_alignment` actually processes: everything
before the first alignment-block line (`a.trimmed...`). -/
def specProcessed (lines : List String) : List String :=
  lines.takeWhile (fun l => !(startsWithS l "a.trimmed"))

/-- Effect of one processed line on the score capture. -/
def scoreUpd (acc : Option String) (l : String) : Option String :=
  if startsWithS l "# Score:" then scoreCapture l else acc

/-- Effect of one processed line on the identity capture. -/
def idUpd (acc : Option ℚ) (l : String) : Option ℚ :=
  if startsWithS l "# Identity:" then idCapture l else acc

/-- The score the parser ends with: the capture of the last score
marker line before the alignment block, or the default. -/
def specScore (lines : List String) : Option String :=
  (specProcessed lines).foldl scoreUpd none

/-- The identity the parser ends with, analogously. -/
def specId (lines : List String) : Option ℚ :=
  (specProcessed lines).foldl idUpd none

/-- A line is well-formed for the parser: if it carries a metadata
marker, the corresponding regex capture succeeds. -/
def markerWF (l : String) : Bool :=
  (!(startsWithS l "# Score:") || (scoreCapture l).isSome)
    && (!(startsWithS l "# Identity:") || (idCapture l).isSome)

/-- State reached after appending a batch of candidates, used to state
the scan characterisation. -/
def spBulk (st : SpSt) (cs : List AlnCand) (al : Bool) : SpSt :=
  ⟨st.isos ++ cs.map (fun c => c.iso), st.scores ++ cs.map (fun c => c.score),
    st.ids ++ cs.map (fun c => c.idv), st.covs ++ cs.map (fun c => c.cov),
    st.lens ++ cs.map (fun c => c.blen), st.refLens ++ cs.map (fun c => c.refLen),
    st.paths ++ cs.map (fun c => c.path), al⟩

/-- Scaffold analogue of `spBulk`, with the per-file gap-free identity
batches flattened into `nogap_id`. -/
def scBulk (st : ScSt) (cs : List (List String × AlnCand)) (al : Bool) : ScSt :=
  ⟨st.isos ++ cs.map (fun pr => pr.2.iso), st.scores ++ cs.map (fun pr => pr.2.score),
    st.ids ++ cs.map (fun pr => pr.2.idv), st.covs ++ cs.map (fun pr => pr.2.cov),
    st.lens ++ cs.map (fun pr => pr.2.blen), st.refLens ++ cs.map (fun pr => pr.2.refLen),
    st.paths ++ cs.map (fun pr => pr.2.path),
    st.nogapIds ++ (cs.map (fun pr => pr.1)).flatten, al⟩

/-- The record line `scaffold_worker` emits for one candidate pair as
`scafCandOf` returns it (singleton gap-free batch). -/
def scPairRecord (pr : List String × AlnCand) : String :=
  record7 (fmtQ pr.2.idv) (fmtQ pr.2.cov) (toString pr.2.blen) pr.2.iso
    (toString pr.2.refLen) pr.2.path pr.1.headI

/-- Concrete scaffold report whose gap-free identity is `12.50`
(1 exact match over 8 reference bases). -/
def exFileA : SeqFile :=
  ⟨"A.Scaffold.trimmed_align.txt", 1, some ["AAAAAAAA".toList, "ACCCCCCC".toList], []⟩

/-- Concrete scaffold report whose gap-free identity is `8.33`
(1 exact match over 12 reference bases). -/
def exFileB : SeqFile :=
  ⟨"B.Scaffold.trimmed_align.txt", 1, some ["AAAAAAAAAAAA".toList, "ACCCCCCCCCCC".toList], []⟩

/-- Concrete well-formed SPAdes report: two identical sequences, no
metadata lines (both stats default to 0). -/
def exGoodSp : SeqFile := ⟨"G.trimmed_align.txt", 1, some ["ACGT".toList, "ACGT".toList], []⟩

/-- Concrete unreadable SPAdes report: retained by name, but
`AlignIO.read` fails on it. -/
def exBadSp : SeqFile := ⟨"X.trimmed_align.txt", 1, none, []⟩

/-- Concrete zero-length scaffold report. -/
def exEmptySc : SeqFile := ⟨"E.Scaffold.trimmed_align.txt", 0, none, []⟩

/-- Concrete well-formed scaffold report (gap-free identity `100.00`). -/
def exGoodSc : SeqFile :=
  ⟨"A.Scaffold.trimmed_align.txt", 1, some ["ACGT".toList, "ACGT".toList], []⟩

/-- Concrete filesystem for the orchestrator example: locus `L1` has no
alignment directory, locus `L2` has one well-formed report. -/
def exFsys : String → Option (List SeqFile) :=
  fun l => if l = "L1" then none else if l = "L2" then some [exGoodSp] else none

lemma length_sub_dropWhile (p : Char → Bool) (l : List Char) :
    l.length - (l.dropWhile p).length = (l.takeWhile p).length := by
  have h := congrArg List.length (@List.takeWhile_append_dropWhile _ p l)
  rw [List.length_append] at h
  omega

lemma gapStripRight_sub (b : List Char) :
    b.length - (gapStripRight b).length = (b.reverse.takeWhile (fun c => c == '-')).length := by
  unfold gapStripRight
  rw [List.length_reverse, ← @List.length_reverse _ b]
  exact length_sub_dropWhile _ _

/-- C5.  For every pair of non-empty equal-length gap-padded sequences,
reference `a` and assembled `b`, `find_ref_len` returns exactly the
reference-covered length the spec describes: remove from `a`'s start as
many characters as `b`'s leading gap run when `a` starts with a real
base and `b` starts with a gap, do the symmetric removal at the end,
then strip all remaining gap characters and count what is left. -/
theorem find_ref_len_matches_spec (a b : List Char) (ha : a ≠ []) (hb : b ≠ [])
    (_hlen : a.length = b.length) : find_ref_len a b = some (refCoveredSpec a b) := by
  unfold find_ref_len
  rw [if_neg (not_or.mpr ⟨ha, hb⟩)]
  unfold frlCore refCoveredSpec gapStripLeft
  rw [length_sub_dropWhile, gapStripRight_sub]

/-- Witness for C5: the spec's own example `a="--ACGT--"`,
`b="XXACGTXX"` gives reference-covered length 4. -/
theorem find_ref_len_matches_spec_witness :
    find_ref_len "--ACGT--".toList "XXACGTXX".toList
        = some (refCoveredSpec "--ACGT--".toList "XXACGTXX".toList)
      ∧ refCoveredSpec "--ACGT--".toList "XXACGTXX".toList = 4 :=
  ⟨find_ref_len_matches_spec _ _ (by decide) (by decide) (by decide), by decide⟩

lemma exactStep_foldl (l : List (Char × Char)) : ∀ tp : ℕ × ℕ,
    l.foldl exactStep tp
      = (tp.1 + l.countP (fun p => p.1 != '-'),
         tp.2 + l.countP (fun p => p.1 != '-' && p.1 == p.2)) := by
  induction l with
  | nil => intro tp; simp
  | cons hd tl ih =>
    intro tp
    rw [List.foldl_cons, ih, List.countP_cons, List.countP_cons]
    unfold exactStep
    by_cases h1 : hd.1 = '-'
    · simp [h1]
    · by_cases h2 : hd.1 = hd.2
      · have e1 : (hd.1 != '-') = true := by simp [h1]
        have e2 : (hd.1 == hd.2) = true := by simp [h2]
        rw [if_pos h1, if_pos h2]
        simp [e1, e2, Prod.ext_iff]
        all_goals omega
      · have e1 : (hd.1 != '-') = true := by simp [h1]
        have e2 : (hd.1 == hd.2) = false := by simp [h2]
        rw [if_pos h1, if_neg h2]
        simp [e1, e2, Prod.ext_iff]
        all_goals omega

lemma zip_countP_nonGap (a : List Char) : ∀ b : List Char, a.length = b.length →
    (a.zip b).countP (fun p => p.1 != '-') = a.countP (fun c => c != '-') := by
  induction a with
  | nil => intro b _; simp
  | cons c cs ih =>
    intro b hb
    cases b with
    | nil => simp at hb
    | cons d ds =>
      simp only [List.zip_cons_cons, List.countP_cons]
      rw [ih ds (by simpa using hb)]

/-- C6.  For every pair of equal-length sequences whose reference `a`
has at least one non-gap character, `calculate_exact_alignment` returns
exactly the spec's gap-free identity: matches at non-gap reference
positions over the count of non-gap reference positions, times 100,
rendered to two decimal places. -/
theorem gap_free_identity_matches_spec (a b : List Char) (hlen : a.length = b.length)
    (h : specTotal a ≠ 0) :
    calculate_exact_alignment a b = Except.ok (fmt2 (specGapFree a b)) := by
  unfold specTotal at h
  unfold calculate_exact_alignment
  rw [exactStep_foldl]
  simp only [Nat.zero_add]
  rw [zip_countP_nonGap a b hlen]
  rw [if_neg h]
  congr 1
  unfold specGapFree specTotal specMatches
  rw [Rat.divInt_eq_div]
  push_cast
  rw [div_mul_eq_mul_div]

/-- Witness for C6: the spec's own example `a="ACGT"`, `b="ACGA"` gives
`75.00`. -/
theorem gap_free_identity_matches_spec_witness :
    calculate_exact_alignment "ACGT".toList "ACGA".toList
        = Except.ok (fmt2 (specGapFree "ACGT".toList "ACGA".toList))
      ∧ calculate_exact_alignment "ACGT".toList "ACGA".toList = Except.ok "75.00" :=
  ⟨gap_free_identity_matches_spec _ _ (by decide) (by decide), by decide⟩

lemma frlCore_le (a b : List Char) : frlCore a b ≤ a.countP (fun c => c != '-') := by
  simp only [frlCore]
  generalize h1 : (if a.head? ≠ some '-' ∧ b.head? = some '-'
      then a.drop (b.length - (gapStripLeft b).length) else a) = t1
  generalize h2 : (if a.getLast? ≠ some '-' ∧ b.getLast? = some '-'
      then t1.take (t1.length - (b.length - (gapStripRight b).length)) else t1) = t2
  have hs1 : t1.Sublist a := by
    rw [← h1]
    split
    · exact List.drop_sublist _ _
    · exact List.Sublist.refl a
  have hs2 : t2.Sublist t1 := by
    rw [← h2]
    split
    · exact List.take_sublist _ _
    · exact List.Sublist.refl t1
  rw [← List.countP_eq_length_filter]
  exact List.Sublist.countP_le _ (hs2.trans hs1)

/-- C8.  For every pair of non-empty equal-length sequences,
`find_ref_len` returns a (non-negative, being `ℕ`-valued) count that
never exceeds the number of non-gap characters of the reference `a`;
on an empty sequence on either side it is undefined (the Python code
raises `IndexError` indexing the first or last character, modelled by
`none`). -/
theorem find_ref_len_bounds :
    (∀ a b : List Char, a ≠ [] → b ≠ [] → a.length = b.length →
      ∃ n, find_ref_len a b = some n ∧ n ≤ a.countP (fun c => c != '-'))
    ∧ (∀ b : List Char, find_ref_len [] b = none)
    ∧ (∀ a : List Char, find_ref_len a [] = none) := by
  refine ⟨fun a b ha hb _ => ?_, fun b => ?_, fun a => ?_⟩
  · refine ⟨frlCore a b, ?_, frlCore_le a b⟩
    unfold find_ref_len
    rw [if_neg (not_or.mpr ⟨ha, hb⟩)]
  · unfold find_ref_len
    rw [if_pos (Or.inl rfl)]
  · unfold find_ref_len
    rw [if_pos (Or.inr rfl)]

/-- Witness for C8: concrete bound at `a="A-"`, `b="CC"`, and concrete
undefinedness on empty inputs. -/
theorem find_ref_len_bounds_witness :
    (∃ n, find_ref_len "A-".toList "CC".toList = some n
        ∧ n ≤ List.countP (fun c => c != '-') "A-".toList)
      ∧ find_ref_len [] "CC".toList = none :=
  ⟨find_ref_len_bounds.1 _ _ (by decide) (by decide) (by decide),
    find_ref_len_bounds.2.1 _⟩

lemma startsWithL_head {s : List Char} {c : Char} {p : List Char}
    (h : startsWithL s (c :: p) = true) : ∃ cs, s = c :: cs ∧ startsWithL cs p = true := by
  cases s with
  | nil => simp [startsWithL] at h
  | cons d ds =>
    unfold startsWithL at h
    rw [Bool.and_eq_true] at h
    exact ⟨ds, by rw [of_decide_eq_true h.1], h.2⟩

lemma score_not_break {l : String} (h : startsWithS l "# Score:" = true) :
    startsWithS l "a.trimmed" = false := by
  unfold startsWithS at h ⊢
  have e1 : "# Score:".toList = ['#', ' ', 'S', 'c', 'o', 'r', 'e', ':'] := by decide
  have e2 : "a.trimmed".toList = ['a', '.', 't', 'r', 'i', 'm', 'm', 'e', 'd'] := by decide
  rw [e1] at h
  rw [e2]
  obtain ⟨cs, hcs, _⟩ := startsWithL_head h
  rw [hcs]
  simp [startsWithL]

lemma id_not_break {l : String} (h : startsWithS l "# Identity:" = true) :
    startsWithS l "a.trimmed" = false := by
  unfold startsWithS at h ⊢
  have e1 : "# Identity:".toList = ['#', ' ', 'I', 'd', 'e', 'n', 't', 'i', 't', 'y', ':'] := by decide
  have e2 : "a.trimmed".toList = ['a', '.', 't', 'r', 'i', 'm', 'm', 'e', 'd'] := by decide
  rw [e1] at h
  rw [e2]
  obtain ⟨cs, hcs, _⟩ := startsWithL_head h
  rw [hcs]
  simp [startsWithL]

lemma score_not_id {l : String} (h : startsWithS l "# Score:" = true) :
    startsWithS l "# Identity:" = false := by
  unfold startsWithS at h ⊢
  have e1 : "# Score:".toList = ['#', ' ', 'S', 'c', 'o', 'r', 'e', ':'] := by decide
  have e2 : "# Identity:".toList = ['#', ' ', 'I', 'd', 'e', 'n', 't', 'i', 't', 'y', ':'] := by decide
  rw [e1] at h
  rw [e2]
  obtain ⟨cs1, hcs1, h1⟩ := startsWithL_head h
  obtain ⟨cs2, hcs2, h2⟩ := startsWithL_head h1
  obtain ⟨cs3, hcs3, _⟩ := startsWithL_head h2
  rw [hcs1, hcs2, hcs3]
  simp [startsWithL]

lemma id_not_score {l : String} (h : startsWithS l "# Identity:" = true) :
    startsWithS l "# Score:" = false := by
  unfold startsWithS at h ⊢
  have e1 : "# Identity:".toList = ['#', ' ', 'I', 'd', 'e', 'n', 't', 'i', 't', 'y', ':'] := by decide
  have e2 : "# Score:".toList = ['#', ' ', 'S', 'c', 'o', 'r', 'e', ':'] := by decide
  rw [e1] at h
  rw [e2]
  obtain ⟨cs1, hcs1, h1⟩ := startsWithL_head h
  obtain ⟨cs2, hcs2, h2⟩ := startsWithL_head h1
  obtain ⟨cs3, hcs3, _⟩ := startsWithL_head h2
  rw [hcs1, hcs2, hcs3]
  simp [startsWithL]

lemma specProcessed_cons_keep {l : String} {ls : List String}
    (h : startsWithS l "a.trimmed" = false) :
    specProcessed (l :: ls) = l :: specProcessed ls := by
  unfold specProcessed
  simp [List.takeWhile_cons, h]

lemma parseLines_wf : ∀ (lines : List String) (st : AlnStats),
    (∀ l ∈ lines, markerWF l = true) →
    parseLines lines st
      = Except.ok ⟨(specProcessed lines).foldl scoreUpd st.score,
                   (specProcessed lines).foldl idUpd st.id⟩ := by
  intro lines
  induction lines with
  | nil => intro st _; simp [parseLines, specProcessed]
  | cons l ls ih =>
    intro st h
    have hwf := h l (List.mem_cons_self _ _)
    unfold markerWF at hwf
    rw [Bool.and_eq_true] at hwf
    by_cases hsc : startsWithS l "# Score:" = true
    · have hcap : (scoreCapture l).isSome = true := by
        have := hwf.1
        rw [hsc] at this
        simpa using this
      obtain ⟨s, hs⟩ := Option.isSome_iff_exists.mp hcap
      have hnb := score_not_break hsc
      have hni := score_not_id hsc
      unfold parseLines
      rw [if_pos hsc, hs]
      show parseLines ls { score := some s, id := st.id } = _
      rw [ih _ (fun x hx => h x (List.mem_cons_of_mem _ hx))]
      rw [specProcessed_cons_keep hnb]
      simp [List.foldl_cons, scoreUpd, idUpd, hsc, hni, hs]
    · by_cases hid : startsWithS l "# Identity:" = true
      · have hcap : (idCapture l).isSome = true := by
          have := hwf.2
          rw [hid] at this
          simpa using this
        obtain ⟨q, hq⟩ := Option.isSome_iff_exists.mp hcap
        have hnb := id_not_break hid
        unfold parseLines
        rw [if_neg (by simp [hsc]), if_pos hid, hq]
        show parseLines ls { score := st.score, id := some q } = _
        rw [ih _ (fun x hx => h x (List.mem_cons_of_mem _ hx))]
        rw [specProcessed_cons_keep hnb]
        simp [List.foldl_cons, scoreUpd, idUpd, hsc, hid, hq]
      · by_cases hbr : startsWithS l "a.trimmed" = true
        · unfold parseLines
          rw [if_neg (by simp [hsc]), if_neg (by simp [hid]), if_pos hbr]
          unfold specProcessed
          simp [List.takeWhile_cons, hbr]
        · unfold parseLines
          rw [if_neg (by simp [hsc]), if_neg (by simp [hid]), if_neg (by simp [hbr])]
          rw [ih _ (fun x hx => h x (List.mem_cons_of_mem _ hx))]
          rw [specProcessed_cons_keep (by simp [hbr])]
          simp [List.foldl_cons, scoreUpd, idUpd, hsc, hid]

lemma parseLines_malformed : ∀ (lines : List String) (st : AlnStats),
    (∃ l ∈ specProcessed lines, markerWF l = false) →
    parseLines lines st = Except.error PyErr.attributeError := by
  intro lines
  induction lines with
  | nil => intro st h; simp [specProcessed] at h
  | cons l ls ih =>
    intro st h
    obtain ⟨x, hx, hmal⟩ := h
    by_cases hsc : startsWithS l "# Score:" = true
    · cases hs : scoreCapture l with
      | none =>
        unfold parseLines
        rw [if_pos hsc, hs]
      | some s =>
        have hwl : markerWF l = true := by
          unfold markerWF
          rw [score_not_id hsc, hs]
          simp
        have hx2 : x ∈ specProcessed ls := by
          rw [specProcessed_cons_keep (score_not_break hsc)] at hx
          rcases List.mem_cons.mp hx with hxl | hxl
          · rw [hxl] at hmal
            rw [hwl] at hmal
            cases hmal
          · exact hxl
        unfold parseLines
        rw [if_pos hsc, hs]
        show parseLines ls { score := some s, id := st.id } = _
        exact ih _ ⟨x, hx2, hmal⟩
    · by_cases hid : startsWithS l "# Identity:" = true
      · cases hq : idCapture l with
        | none =>
          unfold parseLines
          rw [if_neg (by simp [hsc]), if_pos hid, hq]
        | some q =>
          have hwl : markerWF l = true := by
            unfold markerWF
            rw [id_not_score hid, hq]
            simp
          have hx2 : x ∈ specProcessed ls := by
            rw [specProcessed_cons_keep (id_not_break hid)] at hx
            rcases List.mem_cons.mp hx with hxl | hxl
            · rw [hxl] at hmal
              rw [hwl] at hmal
              cases hmal
            · exact hxl
          unfold parseLines
          rw [if_neg (by simp [hsc]), if_pos hid, hq]
          show parseLines ls { score := st.score, id := some q } = _
          exact ih _ ⟨x, hx2, hmal⟩
      · by_cases hbr : startsWithS l "a.trimmed" = true
        · exfalso
          unfold specProcessed at hx
          simp [List.takeWhile_cons, hbr] at hx
        · simp only [Bool.not_eq_true] at hsc hid hbr
          have hwl : markerWF l = true := by
            unfold markerWF
            rw [hsc, hid]
            simp
          have hx2 : x ∈ specProcessed ls := by
            rw [specProcessed_cons_keep hbr] at hx
            rcases List.mem_cons.mp hx with hxl | hxl
            · rw [hxl] at hmal
              rw [hwl] at hmal
              cases hmal
            · exact hxl
          unfold parseLines
          rw [if_neg (by simp [hsc]), if_neg (by simp [hid]), if_neg (by simp [hbr])]
          exact ih _ ⟨x, hx2, hmal⟩

/-- C3 counterexample.  A report in which both metadata markers (the
score line and the identity line) are absent does NOT make the parser
fail: `parse_alignment` returns the untouched defaults
(`score = 0`, `id = 0`, modelled as `none`), refuting the claim that a
missing marker yields a ParseError. -/
theorem parse_alignment_absent_markers_ok :
    parse_alignment ["# Program: needle", "# Rundate: today"] = Except.ok ⟨none, none⟩ := by
  decide

/-- C3 amended.  The parser never fails on an absent marker: whenever
every line carrying a marker is well-formed, it succeeds and returns
the captures of the last score and identity marker lines before the
alignment block (absent markers yielding the default 0, here `none`);
it fails - with `AttributeError`, the concrete exception behind the
spec's ParseError - exactly when a processed marker line is present but
malformed. -/
theorem parse_alignment_marker_behavior :
    (∀ lines : List String, (∀ l ∈ lines, markerWF l = true) →
      parse_alignment lines = Except.ok ⟨specScore lines, specId lines⟩)
    ∧ (∀ lines : List String, (∃ l ∈ specProcessed lines, markerWF l = false) →
      parse_alignment lines = Except.error PyErr.attributeError) :=
  ⟨fun lines h => parseLines_wf lines ⟨none, none⟩ h,
   fun lines h => parseLines_malformed lines ⟨none, none⟩ h⟩

/-- Witness for C3: a well-formed report parses to its extracted score
and identity, and a malformed score line raises. -/
theorem parse_alignment_marker_behavior_witness :
    parse_alignment ["# Score: 512.0", "# Identity:       4/4 (100.0%)"]
        = Except.ok ⟨specScore ["# Score: 512.0", "# Identity:       4/4 (100.0%)"],
                     specId ["# Score: 512.0", "# Identity:       4/4 (100.0%)"]⟩
    ∧ parse_alignment ["# Score:x"] = Except.error PyErr.attributeError :=
  ⟨parse_alignment_marker_behavior.1 _ (by decide),
   parse_alignment_marker_behavior.2 _ ⟨"# Score:x", by decide, by decide⟩⟩

/-- C1 (code bug).  A Scaffold locus under BestOnly with two valid
candidates, the first with gap-free identity 12.50 percent and the
second with 8.33 percent: the worker's `nogap_id` list holds the
formatted strings `["12.50", "8.33"]`, and because `max()` compares
those Python strings lexicographically (`"8.33" > "12.50"`), the single
emitted record is the SECOND candidate's - whose selection-criterion
value 8.33 is strictly below the locus maximum 12.50, against both the
claim and the code's own comment that the best identity is wanted. -/
theorem scaffold_bestonly_lexicographic :
    (scaffold_worker (some [exFileA, exFileB]) "d" "" "yes").1
        = [record7 "0.0" "1.0" "12" "B" "12" "d/B.Scaffold.trimmed_align.txt" "8.33"]
    ∧ (scafScan "d" "" scInit [exFileA, exFileB]).map (fun st => st.nogapIds)
        = Except.ok ["12.50", "8.33"]
    ∧ specGapFree "AAAAAAAA".toList "ACCCCCCC".toList
        > specGapFree "AAAAAAAAAAAA".toList "ACCCCCCCCCCC".toList := by
  refine ⟨by decide, by decide, ?_⟩
  have h1 : specMatches "AAAAAAAA".toList "ACCCCCCC".toList = 1 := by decide
  have h2 : specTotal "AAAAAAAA".toList = 8 := by decide
  have h3 : specMatches "AAAAAAAAAAAA".toList "ACCCCCCCCCCC".toList = 1 := by decide
  have h4 : specTotal "AAAAAAAAAAAA".toList = 12 := by decide
  unfold specGapFree
  rw [h1, h2, h3, h4]
  norm_num

lemma spadesScan_cons (dir p : String) (st : SpSt) (f : SeqFile) (fs : List SeqFile) :
    spadesScan dir p st (f :: fs)
      = match spadesStep dir p st f with
        | Except.error e => Except.error e
        | Except.ok st2 => spadesScan dir p st2 fs := rfl

lemma scafScan_cons (dir p : String) (st : ScSt) (f : SeqFile) (fs : List SeqFile) :
    scafScan dir p st (f :: fs)
      = match scafStep dir p st f with
        | Except.error e => Except.error e
        | Except.ok st2 => scafScan dir p st2 fs := rfl

lemma spadesScan_noCand (dir p : String) : ∀ (fs : List SeqFile) (st : SpSt),
    (∀ f ∈ fs, spadesCandOf dir p f = none) →
    (∃ e, spadesScan dir p st fs = Except.error e)
    ∨ ∃ st2, spadesScan dir p st fs = Except.ok st2
        ∧ st2.ids = st.ids ∧ st2.paths = st.paths := by
  intro fs
  induction fs with
  | nil => intro st _; exact Or.inr ⟨st, rfl, rfl, rfl⟩
  | cons f fs ih =>
    intro st h
    have hf := h f (List.mem_cons_self _ _)
    rw [spadesScan_cons]
    cases hp : spadesProc dir p f with
    | notRetained =>
      have hstep : spadesStep dir p st f = Except.ok st := by
        simp [spadesStep, hp]
      rw [hstep]
      exact ih st (fun x hx => h x (List.mem_cons_of_mem _ hx))
    | failed e =>
      have hstep : spadesStep dir p st f = Except.error e := by
        simp [spadesStep, hp]
      rw [hstep]
      exact Or.inl ⟨e, rfl⟩
    | found c =>
      exfalso
      unfold spadesCandOf at hf
      rw [hp] at hf
      cases hf

lemma scafScan_noCand (dir p : String) : ∀ (fs : List SeqFile) (st : ScSt),
    (∀ f ∈ fs, scafCandOf dir p f = none) →
    (∃ e, scafScan dir p st fs = Except.error e)
    ∨ ∃ st2, scafScan dir p st fs = Except.ok st2
        ∧ st2.ids = st.ids ∧ st2.paths = st.paths ∧ st2.nogapIds = st.nogapIds := by
  intro fs
  induction fs with
  | nil => intro st _; exact Or.inr ⟨st, rfl, rfl, rfl, rfl⟩
  | cons f fs ih =>
    intro st h
    have hf := h f (List.mem_cons_self _ _)
    rw [scafScan_cons]
    cases hp : scafProc dir p f with
    | notRetained =>
      have hstep : scafStep dir p st f = Except.ok st := by
        simp [scafStep, hp]
      rw [hstep]
      exact ih st (fun x hx => h x (List.mem_cons_of_mem _ hx))
    | skippedEmpty =>
      have hstep : scafStep dir p st f = Except.ok { st with aligned := true } := by
        simp [scafStep, hp]
      rw [hstep]
      exact ih { st with aligned := true } (fun x hx => h x (List.mem_cons_of_mem _ hx))
    | failed e =>
      have hstep : scafStep dir p st f = Except.error e := by
        simp [scafStep, hp]
      rw [hstep]
      exact Or.inl ⟨e, rfl⟩
    | found ngs c =>
      exfalso
      unfold scafCandOf at hf
      rw [hp] at hf
      cases hf

/-- C4.  For every locus with zero valid candidates - no retained file
contributes a candidate, whether because it is filtered out, because it
is a zero-length Scaffold report (silently skipped), or because its
processing raises - zero records are emitted for that locus, under
either selection policy and in both workers.  (Under BestOnly with the
`aligned` flag already set, the worker then dies on `max()` of an empty
list, but it has enqueued nothing.) -/
theorem no_valid_candidates_zero_records :
    (∀ (files : List SeqFile) (dir p bo : String),
        (∀ f ∈ files, spadesCandOf dir p f = none) →
        (spades_worker (some files) dir p bo).1 = [])
    ∧ (∀ (files : List SeqFile) (dir p bo : String),
        (∀ f ∈ files, scafCandOf dir p f = none) →
        (scaffold_worker (some files) dir p bo).1 = []) := by
  constructor
  · intro files dir p bo h
    rcases spadesScan_noCand dir p files spInit h with ⟨e, he⟩ | ⟨st2, hok, hids, hpaths⟩
    · simp [spades_worker, he]
    · simp only [spades_worker, hok]
      simp only [spInit] at hids hpaths
      by_cases hal : st2.aligned = false
      · simp [hal]
      · by_cases hbo : bo = "yes"
        · simp [hal, hbo, spadesBest, spadesBestIdx, hids, pyMax]
        · by_cases hbo2 : bo = "no"
          · simp [hal, hbo, hbo2, hpaths, spadesEmitIdx]
          · simp [hal, hbo, hbo2]
  · intro files dir p bo h
    rcases scafScan_noCand dir p files scInit h with ⟨e, he⟩ | ⟨st2, hok, hids, hpaths, hng⟩
    · simp [scaffold_worker, he]
    · simp only [scaffold_worker, hok]
      simp only [scInit] at hids hpaths hng
      by_cases hal : st2.aligned = false
      · simp [hal]
      · by_cases hbo : bo = "yes"
        · simp [hal, hbo, scafBest, scafBestIdx, hng, pyMax]
        · by_cases hbo2 : bo = "no"
          · simp [hal, hbo, hbo2, hpaths, scafEmitIdx]
          · simp [hal, hbo, hbo2]

/-- Witness for C4: a locus whose only SPAdes report is unreadable, and
a Scaffold locus whose only matching report is zero-length, both emit
zero records under BestOnly. -/
theorem no_valid_candidates_zero_records_witness :
    (spades_worker (some [exBadSp]) "d" "" "yes").1 = []
    ∧ (scaffold_worker (some [exEmptySc]) "d" "" "yes").1 = [] :=
  ⟨no_valid_candidates_zero_records.1 [exBadSp] "d" "" "yes" (by decide),
   no_valid_candidates_zero_records.2 [exEmptySc] "d" "" "yes" (by decide)⟩

/-- C2 counterexample.  A run over two loci, the first with a missing
alignment directory: the failing worker emits nothing, the sibling
locus still produces its record, but the orchestrator re-raises the
exception at `job.get()` and therefore never enqueues the stop
sentinel, aborting the run - refuting the claim that a per-locus
failure does not abort the run as a whole. -/
theorem run_aborts_on_missing_directory :
    runJobs exFsys "root" "" "yes" "SPAdes" ["L1\tx", "L2\ty"]
        = [([], some PyErr.fileNotFoundError),
           (["0.0\t1.0\t4\tG\t4\troot/L2/G.trimmed_align.txt\n"], none)]
    ∧ stopEnqueued (runJobs exFsys "root" "" "yes" "SPAdes" ["L1\tx", "L2\ty"]) = false := by
  exact ⟨by decide, by decide⟩

lemma spadesScan_skipAll (dir p : String) : ∀ (fs : List SeqFile) (st : SpSt),
    (∀ f ∈ fs, retainedSp p f = false) → spadesScan dir p st fs = Except.ok st := by
  intro fs
  induction fs with
  | nil => intro st _; rfl
  | cons f fs ih =>
    intro st h
    rw [spadesScan_cons]
    have hstep : spadesStep dir p st f = Except.ok st := by
      simp [spadesStep, spadesProc, h f (List.mem_cons_self _ _)]
    rw [hstep]
    exact ih st (fun x hx => h x (List.mem_cons_of_mem _ hx))

/-- C2 amended.  A per-locus failure still yields zero records for that
locus, but it is NOT isolated: a missing alignment directory (or any
unparsable candidate) raises in the worker, the orchestrator's
`job.get()` loop re-raises it, and the stop sentinel is never enqueued,
so the run aborts.  Only a locus whose directory lists no retained
candidate file degrades silently to zero records without aborting. -/
theorem per_locus_failure_not_isolated :
    (∀ dir p bo : String, spades_worker none dir p bo = ([], some PyErr.fileNotFoundError))
    ∧ (∀ dir p bo : String, scaffold_worker none dir p bo = ([], some PyErr.fileNotFoundError))
    ∧ (∀ results : List (List String × Option PyErr),
        (∃ r ∈ results, r.2 ≠ none) → stopEnqueued results = false)
    ∧ (∀ (files : List SeqFile) (dir p bo : String),
        (∀ f ∈ files, retainedSp p f = false) →
        spades_worker (some files) dir p bo = ([], none)) := by
  refine ⟨fun dir p bo => rfl, fun dir p bo => rfl, ?_, ?_⟩
  · intro results ⟨r, hr, hne⟩
    unfold stopEnqueued
    cases hall : results.all (fun r => r.2 = none) with
    | false => rfl
    | true =>
      exfalso
      have := List.all_eq_true.mp hall r hr
      exact hne (of_decide_eq_true this)
  · intro files dir p bo h
    simp only [spades_worker, spadesScan_skipAll dir p files spInit h]
    rfl

/-- Witness for C2's amended theorem: a single failed job blocks the
stop sentinel, and a locus with no retained files is silently empty. -/
theorem per_locus_failure_not_isolated_witness :
    stopEnqueued [([], some PyErr.fileNotFoundError)] = false
    ∧ spades_worker (some []) "d" "" "yes" = ([], none) :=
  ⟨per_locus_failure_not_isolated.2.2.1 _
      ⟨([], some PyErr.fileNotFoundError), by simp, by simp⟩,
   per_locus_failure_not_isolated.2.2.2 [] "d" "" "yes" (by simp)⟩

lemma append_newline_ne_stop (s : String) : s ++ "\n" ≠ "stop" := by
  intro h
  have h2 : s.data ++ ['\n'] = "stop".data := congrArg String.data h
  have h4 := congrArg List.getLast? h2
  rw [List.getLast?_concat] at h4
  have h5 : "stop".data.getLast? = some 'p' := by decide
  rw [h5] at h4
  exact absurd (Option.some.inj h4) (by decide)

lemma listener_drain : ∀ msgs : List String,
    (∀ m ∈ msgs, m ≠ "stop") → listener (msgs ++ ["stop"]) = msgs := by
  intro msgs
  induction msgs with
  | nil => intro _; simp [listener]
  | cons m ms ih =>
    intro h
    simp only [List.cons_append]
    unfold listener
    rw [if_neg (h m (List.mem_cons_self _ _))]
    rw [ih (fun x hx => h x (List.mem_cons_of_mem _ hx))]

lemma spadesEmitIdx_mem_shape (st : SpSt) : ∀ (idxs : List ℕ) (m : String),
    m ∈ (spadesEmitIdx st idxs).1 →
    ∃ g1 g2 g3 g4 g5 g6, m = record6 g1 g2 g3 g4 g5 g6 := by
  intro idxs
  induction idxs with
  | nil => intro m hm; simp [spadesEmitIdx] at hm
  | cons x xs ih =>
    intro m hm
    unfold spadesEmitIdx at hm
    split at hm
    · rcases List.mem_cons.mp hm with hm1 | hm1
      · exact ⟨_, _, _, _, _, _, hm1⟩
      · exact ih m hm1
    · simp at hm

lemma spadesBest_mem_shape (st : SpSt) (m : String)
    (hm : m ∈ (spadesBest st).1) :
    ∃ g1 g2 g3 g4 g5 g6, m = record6 g1 g2 g3 g4 g5 g6 := by
  unfold spadesBest at hm
  split at hm
  · simp at hm
  · split at hm
    · rcases List.mem_singleton.mp hm with hm1
      exact ⟨_, _, _, _, _, _, hm1⟩
    · simp at hm

lemma spades_worker_mem_shape (d : Option (List SeqFile)) (dir p bo m : String)
    (hm : m ∈ (spades_worker d dir p bo).1) :
    ∃ g1 g2 g3 g4 g5 g6, m = record6 g1 g2 g3 g4 g5 g6 := by
  unfold spades_worker at hm
  split at hm
  · simp at hm
  · split at hm
    · simp at hm
    · split at hm
      · simp at hm
      · split at hm
        · exact spadesBest_mem_shape _ m hm
        · split at hm
          · exact spadesEmitIdx_mem_shape _ _ m hm
          · simp at hm

lemma scafEmitIdx_mem_shape (st : ScSt) : ∀ (idxs : List ℕ) (m : String),
    m ∈ (scafEmitIdx st idxs).1 →
    ∃ g1 g2 g3 g4 g5 g6 g7, m = record7 g1 g2 g3 g4 g5 g6 g7 := by
  intro idxs
  induction idxs with
  | nil => intro m hm; simp [scafEmitIdx] at hm
  | cons x xs ih =>
    intro m hm
    unfold scafEmitIdx at hm
    split at hm
    · rcases List.mem_cons.mp hm with hm1 | hm1
      · exact ⟨_, _, _, _, _, _, _, hm1⟩
      · exact ih m hm1
    · simp at hm

lemma scafBest_mem_shape (st : ScSt) (m : String)
    (hm : m ∈ (scafBest st).1) :
    ∃ g1 g2 g3 g4 g5 g6 g7, m = record7 g1 g2 g3 g4 g5 g6 g7 := by
  unfold scafBest at hm
  split at hm
  · simp at hm
  · split at hm
    · rcases List.mem_singleton.mp hm with hm1
      exact ⟨_, _, _, _, _, _, _, hm1⟩
    · simp at hm

lemma scaffold_worker_mem_shape (d : Option (List SeqFile)) (dir p bo m : String)
    (hm : m ∈ (scaffold_worker d dir p bo).1) :
    ∃ g1 g2 g3 g4 g5 g6 g7, m = record7 g1 g2 g3 g4 g5 g6 g7 := by
  unfold scaffold_worker at hm
  split at hm
  · simp at hm
  · split at hm
    · simp at hm
    · split at hm
      · simp at hm
      · split at hm
        · exact scafBest_mem_shape _ m hm
        · split at hm
          · exact scafEmitIdx_mem_shape _ _ m hm
          · simp at hm

/-- C10.  Every message either worker places on the aggregation queue
is a tab-separated record line (six fields for SPAdes, seven for
scaffold) terminated by a newline, hence never equal to the sentinel
string `stop`; consequently the writer loop consumes every data record
and terminates exactly on the orchestrator's stop message. -/
theorem worker_messages_never_stop :
    (∀ (d : Option (List SeqFile)) (dir p bo m : String),
      m ∈ (spades_worker d dir p bo).1 →
      (∃ gs : List String, gs.length = 6 ∧ m = String.intercalate "\t" gs ++ "\n")
        ∧ m ≠ "stop")
    ∧ (∀ (d : Option (List SeqFile)) (dir p bo m : String),
      m ∈ (scaffold_worker d dir p bo).1 →
      (∃ gs : List String, gs.length = 7 ∧ m = String.intercalate "\t" gs ++ "\n")
        ∧ m ≠ "stop")
    ∧ (∀ msgs : List String,
      (∀ m ∈ msgs, m ≠ "stop") → listener (msgs ++ ["stop"]) = msgs) := by
  refine ⟨?_, ?_, listener_drain⟩
  · intro d dir p bo m hm
    obtain ⟨g1, g2, g3, g4, g5, g6, hrec⟩ := spades_worker_mem_shape d dir p bo m hm
    refine ⟨⟨[g1, g2, g3, g4, g5, g6], rfl, hrec⟩, ?_⟩
    rw [hrec]
    exact append_newline_ne_stop _
  · intro d dir p bo m hm
    obtain ⟨g1, g2, g3, g4, g5, g6, g7, hrec⟩ := scaffold_worker_mem_shape d dir p bo m hm
    refine ⟨⟨[g1, g2, g3, g4, g5, g6, g7], rfl, hrec⟩, ?_⟩
    rw [hrec]
    exact append_newline_ne_stop _

/-- Witness for C10: the record emitted for a concrete locus is not the
sentinel, and the listener drains it then stops. -/
theorem worker_messages_never_stop_witness :
    ("0.0\t1.0\t4\tG\t4\td/G.trimmed_align.txt\n" : String) ≠ "stop"
    ∧ listener ["0.0\t1.0\t4\tG\t4\td/G.trimmed_align.txt\n", "stop"]
        = ["0.0\t1.0\t4\tG\t4\td/G.trimmed_align.txt\n"] :=
  ⟨(worker_messages_never_stop.1 (some [exGoodSp]) "d" "" "yes" _ (by decide)).2,
   worker_messages_never_stop.2.2 ["0.0\t1.0\t4\tG\t4\td/G.trimmed_align.txt\n"] (by decide)⟩

lemma pyMaxGo_mem {α : Type} (lt : α → α → Bool) :
    ∀ (xs : List α) (m : α), pyMaxGo lt m xs ∈ m :: xs := by
  intro xs
  induction xs with
  | nil => intro m; simp [pyMaxGo]
  | cons x xs ih =>
    intro m
    unfold pyMaxGo
    rcases List.mem_cons.mp (ih (if lt m x then x else m)) with h | h
    · rw [h]
      split
      · simp
      · simp
    · simp [List.mem_cons.mpr (Or.inr (List.mem_cons.mpr (Or.inr h)))]

lemma pyMax_mem {α : Type} (lt : α → α → Bool) (l : List α) (h : l ≠ []) :
    ∃ m, pyMax lt l = some m ∧ m ∈ l := by
  cases l with
  | nil => exact absurd rfl h
  | cons x xs => exact ⟨pyMaxGo lt x xs, rfl, pyMaxGo_mem lt xs x⟩

lemma pyIndexOf_mem {α : Type} [DecidableEq α] :
    ∀ (l : List α) (v : α), v ∈ l → ∃ i, pyIndexOf l v = some i ∧ i < l.length := by
  intro l
  induction l with
  | nil => intro v hv; simp at hv
  | cons x xs ih =>
    intro v hv
    by_cases hx : x = v
    · exact ⟨0, by simp [pyIndexOf, hx], by simp⟩
    · have hv2 : v ∈ xs := by
        rcases List.mem_cons.mp hv with h | h
        · exact absurd h.symm hx
        · exact h
      obtain ⟨j, hj, hjl⟩ := ih v hv2
      refine ⟨j + 1, ?_, by simp; omega⟩
      simp [pyIndexOf, hx, hj]

lemma spadesProc_not_retained {dir p : String} {f : SeqFile}
    (h : retainedSp p f = false) : spadesProc dir p f = SpOut.notRetained := by
  simp [spadesProc, h]

lemma spadesCandOf_none_not_retained {dir p : String} {f : SeqFile}
    (h : retainedSp p f = false) : spadesCandOf dir p f = none := by
  simp [spadesCandOf, spadesProc_not_retained h]

lemma spadesCandOf_some_iff {dir p : String} {f : SeqFile} {c : AlnCand} :
    spadesCandOf dir p f = some c ↔ spadesProc dir p f = SpOut.found c := by
  unfold spadesCandOf
  cases hp : spadesProc dir p f <;> simp

lemma scafProc_not_retained {dir p : String} {f : SeqFile}
    (h : retainedScaf p f = false) : scafProc dir p f = ScOut.notRetained := by
  simp [scafProc, h]

lemma scafProc_empty {dir p : String} {f : SeqFile}
    (h : retainedScaf p f = true) (hz : f.size = 0) :
    scafProc dir p f = ScOut.skippedEmpty := by
  simp [scafProc, h, hz]

lemma scafCandOf_some_iff {dir p : String} {f : SeqFile} {ngs : List String} {c : AlnCand} :
    scafCandOf dir p f = some (ngs, c) ↔ scafProc dir p f = ScOut.found ngs c := by
  unfold scafCandOf
  cases hp : scafProc dir p f <;> simp

lemma scafCandOf_none_not_kept {dir p : String} {f : SeqFile}
    (h : scafKept p f = false) : scafCandOf dir p f = none := by
  unfold scafKept at h
  rw [Bool.and_eq_false_iff] at h
  rcases h with h | h
  · simp [scafCandOf, scafProc_not_retained h]
  · have hz : f.size = 0 := by
      rcases Decidable.em (f.size = 0) with hz | hz
      · exact hz
      · simp [hz] at h
    cases hr : retainedScaf p f with
    | false => simp [scafCandOf, scafProc_not_retained hr]
    | true => simp [scafCandOf, scafProc_empty hr hz]

lemma spadesScan_char (dir p : String) : ∀ (fs : List SeqFile) (st : SpSt),
    (∀ f ∈ fs, retainedSp p f = true → (spadesCandOf dir p f).isSome = true) →
    spadesScan dir p st fs
      = Except.ok (spBulk st (fs.filterMap (spadesCandOf dir p))
          (st.aligned || fs.any (fun f => retainedSp p f))) := by
  intro fs
  induction fs with
  | nil =>
    intro st _
    simp [spadesScan, spBulk]
  | cons f fs ih =>
    intro st h
    rw [spadesScan_cons]
    cases hr : retainedSp p f with
    | false =>
      have hstep : spadesStep dir p st f = Except.ok st := by
        simp [spadesStep, spadesProc_not_retained hr]
      rw [hstep]
      show spadesScan dir p st fs = _
      rw [ih st (fun x hx hrx => h x (List.mem_cons_of_mem _ hx) hrx)]
      rw [List.filterMap_cons_none (spadesCandOf_none_not_retained hr)]
      simp [hr]
    | true =>
      obtain ⟨c, hc⟩ := Option.isSome_iff_exists.mp (h f (List.mem_cons_self _ _) hr)
      have hfound := spadesCandOf_some_iff.mp hc
      have hstep : spadesStep dir p st f = Except.ok (spPush st c) := by
        simp [spadesStep, hfound]
      rw [hstep]
      show spadesScan dir p (spPush st c) fs = _
      rw [ih (spPush st c) (fun x hx hrx => h x (List.mem_cons_of_mem _ hx) hrx)]
      rw [List.filterMap_cons_some hc]
      congr 1
      unfold spBulk spPush
      simp [hr, List.append_assoc]

lemma scafScan_char (dir p : String) : ∀ (fs : List SeqFile) (st : ScSt),
    (∀ f ∈ fs, scafKept p f = true → (scafCandOf dir p f).isSome = true) →
    scafScan dir p st fs
      = Except.ok (scBulk st (fs.filterMap (scafCandOf dir p))
          (st.aligned || fs.any (fun f => retainedScaf p f))) := by
  intro fs
  induction fs with
  | nil =>
    intro st _
    simp [scafScan, scBulk]
  | cons f fs ih =>
    intro st h
    rw [scafScan_cons]
    cases hr : retainedScaf p f with
    | false =>
      have hstep : scafStep dir p st f = Except.ok st := by
        simp [scafStep, scafProc_not_retained hr]
      rw [hstep]
      show scafScan dir p st fs = _
      rw [ih st (fun x hx hrx => h x (List.mem_cons_of_mem _ hx) hrx)]
      have hnone : scafCandOf dir p f = none := by
        simp [scafCandOf, scafProc_not_retained hr]
      rw [List.filterMap_cons_none hnone]
      simp [hr]
    | true =>
      by_cases hz : f.size = 0
      · have hstep : scafStep dir p st f = Except.ok { st with aligned := true } := by
          simp [scafStep, scafProc_empty hr hz]
        rw [hstep]
        show scafScan dir p { st with aligned := true } fs = _
        rw [ih { st with aligned := true } (fun x hx hrx => h x (List.mem_cons_of_mem _ hx) hrx)]
        have hnone : scafCandOf dir p f = none := by
          simp [scafCandOf, scafProc_empty hr hz]
        rw [List.filterMap_cons_none hnone]
        simp [scBulk, hr]
      · have hkept : scafKept p f = true := by
          simp [scafKept, hr, hz]
        obtain ⟨pr, hc⟩ := Option.isSome_iff_exists.mp (h f (List.mem_cons_self _ _) hkept)
        have hfound : scafProc dir p f = ScOut.found pr.1 pr.2 := by
          exact scafCandOf_some_iff.mp (by rw [hc])
        have hstep : scafStep dir p st f = Except.ok (scPush st pr.1 pr.2) := by
          simp [scafStep, hfound]
        rw [hstep]
        show scafScan dir p (scPush st pr.1 pr.2) fs = _
        rw [ih (scPush st pr.1 pr.2) (fun x hx hrx => h x (List.mem_cons_of_mem _ hx) hrx)]
        rw [List.filterMap_cons_some hc]
        congr 1
        unfold scBulk scPush
        simp [hr, List.append_assoc]

lemma spadesEmitIdx_map (cs : List AlnCand) (st : SpSt)
    (h1 : st.ids = cs.map (fun c => c.idv)) (h2 : st.covs = cs.map (fun c => c.cov))
    (h3 : st.lens = cs.map (fun c => c.blen)) (h4 : st.isos = cs.map (fun c => c.iso))
    (h5 : st.refLens = cs.map (fun c => c.refLen)) (h6 : st.paths = cs.map (fun c => c.path)) :
    ∀ (n i : ℕ), i + n = cs.length →
    spadesEmitIdx st (List.range' i n) = ((cs.drop i).map spRecord, none) := by
  intro n
  induction n with
  | zero =>
    intro i hi
    have hd : cs.drop i = [] := List.drop_eq_nil_of_le (by omega)
    simp [List.range', spadesEmitIdx, hd]
  | succ n ihn =>
    intro i hi
    have hilt : i < cs.length := by omega
    have hget : ∀ {β : Type} (g : AlnCand → β), (cs.map g).get? i = some (g (cs.get ⟨i, hilt⟩)) := by
      intro β g
      rw [List.get?_map, List.get?_eq_get hilt]
      rfl
    rw [List.range'_succ]
    unfold spadesEmitIdx
    rw [h1, h2, h3, h4, h5, h6, hget (fun c => c.idv), hget (fun c => c.cov),
      hget (fun c => c.blen), hget (fun c => c.iso), hget (fun c => c.refLen),
      hget (fun c => c.path)]
    show (spRecord (cs.get ⟨i, hilt⟩) :: (spadesEmitIdx st (List.range' (i + 1) n)).1,
      (spadesEmitIdx st (List.range' (i + 1) n)).2) = _
    rw [ihn (i + 1) (by omega)]
    rw [← List.get_cons_drop cs ⟨i, hilt⟩]
    rfl

lemma scafEmitIdx_map (ps : List (List String × AlnCand)) (st : ScSt)
    (h1 : st.ids = ps.map (fun r => r.2.idv)) (h2 : st.covs = ps.map (fun r => r.2.cov))
    (h3 : st.lens = ps.map (fun r => r.2.blen)) (h4 : st.isos = ps.map (fun r => r.2.iso))
    (h5 : st.refLens = ps.map (fun r => r.2.refLen)) (h6 : st.paths = ps.map (fun r => r.2.path))
    (h7 : st.nogapIds = ps.map (fun r => r.1.headI)) :
    ∀ (n i : ℕ), i + n = ps.length →
    scafEmitIdx st (List.range' i n) = ((ps.drop i).map scPairRecord, none) := by
  intro n
  induction n with
  | zero =>
    intro i hi
    have hd : ps.drop i = [] := List.drop_eq_nil_of_le (by omega)
    simp [List.range', scafEmitIdx, hd]
  | succ n ihn =>
    intro i hi
    have hilt : i < ps.length := by omega
    have hget : ∀ {β : Type} (g : List String × AlnCand → β),
        (ps.map g).get? i = some (g (ps.get ⟨i, hilt⟩)) := by
      intro β g
      rw [List.get?_map, List.get?_eq_get hilt]
      rfl
    rw [List.range'_succ]
    unfold scafEmitIdx
    rw [h1, h2, h3, h4, h5, h6, h7, hget (fun r => r.2.idv), hget (fun r => r.2.cov),
      hget (fun r => r.2.blen), hget (fun r => r.2.iso), hget (fun r => r.2.refLen),
      hget (fun r => r.2.path), hget (fun r => r.1.headI)]
    show (scPairRecord (ps.get ⟨i, hilt⟩) :: (scafEmitIdx st (List.range' (i + 1) n)).1,
      (scafEmitIdx st (List.range' (i + 1) n)).2) = _
    rw [ihn (i + 1) (by omega)]
    rw [← List.get_cons_drop ps ⟨i, hilt⟩]
    rfl

lemma scafCandOf_some_kept {dir p : String} {f : SeqFile} {pr : List String × AlnCand}
    (h : scafCandOf dir p f = some pr) : scafKept p f = true := by
  cases hk : scafKept p f with
  | true => rfl
  | false => rw [scafCandOf_none_not_kept hk] at h; cases h

/-- C7 counterexample.  A locus with exactly one valid candidate file
and one unreadable candidate file, under the All policy: the worker
dies on the unreadable file and emits ZERO records, not one record for
the valid candidate - refuting the claim that a locus with N valid
candidate files yields exactly N records. -/
theorem all_policy_drops_locus_on_parse_failure :
    (spadesCandOf "d" "" exGoodSp).isSome = true
    ∧ spadesCandOf "d" "" exBadSp = none
    ∧ spades_worker (some [exGoodSp, exBadSp]) "d" "" "no" = ([], some PyErr.valueError) := by
  exact ⟨by decide, by decide, by decide⟩

lemma flatten_singletons : ∀ (l : List (List String)),
    (∀ x ∈ l, ∃ g, x = [g]) → l.flatten = l.map (fun x => x.headI) := by
  intro l
  induction l with
  | nil => intro _; rfl
  | cons x xs ih =>
    intro h
    obtain ⟨g, hg⟩ := h x (List.mem_cons_self _ _)
    rw [List.flatten_cons, List.map_cons, ih (fun y hy => h y (List.mem_cons_of_mem _ hy)), hg]
    rfl

/-- C7 amended.  Under the All policy, a locus whose retained candidate
files are all valid yields exactly one record per retained file, in
scan order, each built from that file's candidate data (for Scaffold, a
valid candidate is a well-formed two-sequence report contributing
exactly one gap-free identity).  When any retained file fails to parse,
the worker aborts and the locus yields zero records (see the
counterexample), so the per-valid-file correspondence only holds on
loci without invalid retained files. -/
theorem all_policy_emits_per_valid_candidate :
    (∀ (files : List SeqFile) (dir p : String),
        (∀ f ∈ files, retainedSp p f = true → (spadesCandOf dir p f).isSome = true) →
        (spades_worker (some files) dir p "no").1
          = (files.filterMap (spadesCandOf dir p)).map spRecord)
    ∧ (∀ (files : List SeqFile) (dir p : String),
        (∀ f ∈ files, scafKept p f = true → ∃ g c, scafCandOf dir p f = some ([g], c)) →
        (scaffold_worker (some files) dir p "no").1
          = (files.filterMap (scafCandOf dir p)).map scPairRecord) := by
  constructor
  · intro files dir p h
    simp only [spades_worker, spadesScan_char dir p files spInit h]
    cases hany : files.any (fun f => retainedSp p f) with
    | false =>
      have hcs : files.filterMap (spadesCandOf dir p) = [] := by
        rw [List.filterMap_eq_nil]
        intro f hf
        have hr : retainedSp p f = false := by
          have := List.any_eq_false.mp hany f hf
          simp at this
          exact this
        exact spadesCandOf_none_not_retained hr
      simp [spBulk, spInit, hany, hcs]
    | true =>
      rw [if_neg (by simp [spBulk, spInit])]
      rw [if_neg (show ¬(("no" : String) = "yes") by decide)]
      rw [if_pos trivial]
      have hpl : (spBulk spInit (files.filterMap (spadesCandOf dir p))
          (spInit.aligned || true)).paths.length
          = (files.filterMap (spadesCandOf dir p)).length := by
        simp [spBulk, spInit]
      rw [hpl, List.range_eq_range']
      rw [spadesEmitIdx_map (files.filterMap (spadesCandOf dir p)) _
        (by simp [spBulk, spInit]) (by simp [spBulk, spInit]) (by simp [spBulk, spInit])
        (by simp [spBulk, spInit]) (by simp [spBulk, spInit]) (by simp [spBulk, spInit])
        (files.filterMap (spadesCandOf dir p)).length 0 (by omega)]
      simp
  · intro files dir p h
    have hval : ∀ f ∈ files, scafKept p f = true → (scafCandOf dir p f).isSome = true := by
      intro f hf hk
      obtain ⟨g, c, hc⟩ := h f hf hk
      rw [hc]
      rfl
    simp only [scaffold_worker, scafScan_char dir p files scInit hval]
    have hsing : ∀ pr ∈ files.filterMap (scafCandOf dir p), ∃ g, pr.1 = [g] := by
      intro pr hpr
      obtain ⟨f, hf, hc⟩ := List.mem_filterMap.mp hpr
      obtain ⟨g, c, hgc⟩ := h f hf (scafCandOf_some_kept hc)
      rw [hgc] at hc
      obtain rfl := Option.some.inj hc
      exact ⟨g, rfl⟩
    cases hany : files.any (fun f => retainedScaf p f) with
    | false =>
      have hcs : files.filterMap (scafCandOf dir p) = [] := by
        rw [List.filterMap_eq_nil]
        intro f hf
        have hr : retainedScaf p f = false := by
          have := List.any_eq_false.mp hany f hf
          simp at this
          exact this
        simp [scafCandOf, scafProc_not_retained hr]
      simp [scBulk, scInit, hany, hcs]
    | true =>
      rw [if_neg (by simp [scBulk, scInit])]
      rw [if_neg (show ¬(("no" : String) = "yes") by decide)]
      rw [if_pos trivial]
      have hpl : (scBulk scInit (files.filterMap (scafCandOf dir p))
          (scInit.aligned || true)).paths.length
          = (files.filterMap (scafCandOf dir p)).length := by
        simp [scBulk, scInit]
      rw [hpl, List.range_eq_range']
      rw [scafEmitIdx_map (files.filterMap (scafCandOf dir p)) _
        (by simp [scBulk, scInit]) (by simp [scBulk, scInit]) (by simp [scBulk, scInit])
        (by simp [scBulk, scInit]) (by simp [scBulk, scInit]) (by simp [scBulk, scInit])
        (by
          simp only [scBulk, scInit]
          rw [flatten_singletons (List.map (fun pr => pr.1) (files.filterMap (scafCandOf dir p)))
            (by
              intro x hx
              obtain ⟨pr, hpr, rfl⟩ := List.mem_map.mp hx
              exact hsing pr hpr)]
          rw [List.map_map]
          rfl)
        (files.filterMap (scafCandOf dir p)).length 0 (by omega)]
      simp

/-- Witness for C7's amended theorem: a locus with one valid SPAdes
candidate yields exactly that one record under All, and similarly for a
Scaffold locus. -/
theorem all_policy_emits_per_valid_candidate_witness :
    (spades_worker (some [exGoodSp]) "d" "" "no").1
        = ([exGoodSp].filterMap (spadesCandOf "d" "")).map spRecord
    ∧ (scaffold_worker (some [exGoodSc]) "d" "" "no").1
        = ([exGoodSc].filterMap (scafCandOf "d" "")).map scPairRecord :=
  ⟨all_policy_emits_per_valid_candidate.1 [exGoodSp] "d" ""
      (by intro f hf _; simp at hf; subst hf; decide),
   all_policy_emits_per_valid_candidate.2 [exGoodSc] "d" ""
      (by
        intro f hf _
        simp at hf
        subst hf
        exact ⟨"100.00", ⟨"A", 0, 0, 1, 4, 4, "d/A.Scaffold.trimmed_align.txt"⟩, by decide⟩)⟩

lemma spadesScan_ok_valid (dir p : String) : ∀ (fs : List SeqFile) (st st2 : SpSt),
    spadesScan dir p st fs = Except.ok st2 →
    ∀ f ∈ fs, retainedSp p f = true → (spadesCandOf dir p f).isSome = true := by
  intro fs
  induction fs with
  | nil => intro st st2 _ f hf; simp at hf
  | cons f2 fs ih =>
    intro st st2 hok f hf hr
    rw [spadesScan_cons] at hok
    cases hstep : spadesStep dir p st f2 with
    | error e => simp [hstep] at hok
    | ok stm =>
      simp only [hstep] at hok
      rcases List.mem_cons.mp hf with hfe | hfe
      · subst hfe
        unfold spadesStep at hstep
        cases hp : spadesProc dir p f with
        | notRetained =>
          exfalso
          unfold spadesProc at hp
          rw [if_pos hr] at hp
          cases hb : spadesBody dir f <;> simp [hb] at hp
        | failed e =>
          rw [hp] at hstep
          simp at hstep
        | found c => simp [spadesCandOf, hp]
      · exact ih stm st2 hok f hfe hr

lemma scafScan_ok_valid (dir p : String) : ∀ (fs : List SeqFile) (st st2 : ScSt),
    scafScan dir p st fs = Except.ok st2 →
    ∀ f ∈ fs, scafKept p f = true → (scafCandOf dir p f).isSome = true := by
  intro fs
  induction fs with
  | nil => intro st st2 _ f hf; simp at hf
  | cons f2 fs ih =>
    intro st st2 hok f hf hk
    rw [scafScan_cons] at hok
    cases hstep : scafStep dir p st f2 with
    | error e => simp [hstep] at hok
    | ok stm =>
      simp only [hstep] at hok
      rcases List.mem_cons.mp hf with hfe | hfe
      · subst hfe
        unfold scafKept at hk
        rw [Bool.and_eq_true] at hk
        have hz : f.size ≠ 0 := of_decide_eq_true hk.2
        unfold scafStep at hstep
        cases hp : scafProc dir p f with
        | notRetained =>
          exfalso
          unfold scafProc at hp
          rw [if_pos hk.1, if_neg hz] at hp
          cases hb : scafBody dir f <;> simp [hb] at hp
        | skippedEmpty =>
          exfalso
          unfold scafProc at hp
          rw [if_pos hk.1, if_neg hz] at hp
          cases hb : scafBody dir f <;> simp [hb] at hp
        | failed e =>
          rw [hp] at hstep
          simp at hstep
        | found ngs c => simp [scafCandOf, hp]
      · exact ih stm st2 hok f hfe hk

lemma spades_filterMap_length (dir p : String) : ∀ (fs : List SeqFile),
    (∀ f ∈ fs, retainedSp p f = true → (spadesCandOf dir p f).isSome = true) →
    (fs.filterMap (spadesCandOf dir p)).length
      = (fs.filter (fun f => retainedSp p f)).length := by
  intro fs
  induction fs with
  | nil => intro _; rfl
  | cons f fs ih =>
    intro h
    cases hr : retainedSp p f with
    | false =>
      rw [List.filterMap_cons_none (spadesCandOf_none_not_retained hr)]
      rw [List.filter_cons_of_neg (by simp [hr])]
      exact ih (fun x hx => h x (List.mem_cons_of_mem _ hx))
    | true =>
      obtain ⟨c, hc⟩ := Option.isSome_iff_exists.mp (h f (List.mem_cons_self _ _) hr)
      rw [List.filterMap_cons_some hc]
      rw [List.filter_cons_of_pos (by simp [hr])]
      simp only [List.length_cons]
      rw [ih (fun x hx => h x (List.mem_cons_of_mem _ hx))]

lemma scaf_filterMap_length (dir p : String) : ∀ (fs : List SeqFile),
    (∀ f ∈ fs, scafKept p f = true → (scafCandOf dir p f).isSome = true) →
    (fs.filterMap (scafCandOf dir p)).length
      = (fs.filter (fun f => scafKept p f)).length := by
  intro fs
  induction fs with
  | nil => intro _; rfl
  | cons f fs ih =>
    intro h
    cases hk : scafKept p f with
    | false =>
      rw [List.filterMap_cons_none (scafCandOf_none_not_kept hk)]
      rw [List.filter_cons_of_neg (by simp [hk])]
      exact ih (fun x hx => h x (List.mem_cons_of_mem _ hx))
    | true =>
      obtain ⟨c, hc⟩ := Option.isSome_iff_exists.mp (h f (List.mem_cons_self _ _) hk)
      rw [List.filterMap_cons_some hc]
      rw [List.filter_cons_of_pos (by simp [hk])]
      simp only [List.length_cons]
      rw [ih (fun x hx => h x (List.mem_cons_of_mem _ hx))]

lemma scafSeqLoop_two_left (s1 s2 : List Char) (h1 : s1 = []) :
    scafSeqLoop ⟨[], [], none, []⟩ [s1, s2] = Except.ok ⟨s2, [], none, []⟩ := by
  subst h1
  simp [scafSeqLoop, scafSeqStep]

lemma scafSeqLoop_two_right (s1 s2 : List Char) (h1 : s1 ≠ []) (h2 : s2 = []) :
    scafSeqLoop ⟨[], [], none, []⟩ [s1, s2] = Except.ok ⟨s1, [], none, []⟩ := by
  subst h2
  simp [scafSeqLoop, scafSeqStep, h1]

lemma scafSeqLoop_two (s1 s2 : List Char) (h1 : s1 ≠ []) (h2 : s2 ≠ []) :
    scafSeqLoop ⟨[], [], none, []⟩ [s1, s2]
      = match calculate_exact_alignment s1 s2 with
        | Except.error e => Except.error e
        | Except.ok g => Except.ok ⟨s1.filter (fun ch => ch != '-'),
            s2.filter (fun ch => ch != '-'), some (frlCore s1 s2), [g]⟩ := by
  simp [scafSeqLoop, scafSeqStep, h1, h2]
  cases hcalc : calculate_exact_alignment s1 s2 <;> simp [hcalc]

lemma scafFound_ngs1 {dir p : String} {f : SeqFile} {s1 s2 : List Char}
    {ngs : List String} {c : AlnCand}
    (hseq : f.alignio = some [s1, s2])
    (hp : scafProc dir p f = ScOut.found ngs c) : ∃ g, ngs = [g] := by
  unfold scafProc at hp
  by_cases hr : retainedScaf p f = true
  case neg =>
    rw [if_neg hr] at hp
    cases hp
  case pos =>
  rw [if_pos hr] at hp
  by_cases hz : f.size = 0
  case pos =>
    rw [if_pos hz] at hp
    cases hp
  case neg =>
  rw [if_neg hz] at hp
  cases hb : scafBody dir f with
  | error e =>
    rw [hb] at hp
    cases hp
  | ok pr =>
    rw [hb] at hp
    injection hp with hngs hcc
    unfold scafBody at hb
    simp only [hseq] at hb
    by_cases h1 : s1 = []
    · rw [scafSeqLoop_two_left s1 s2 h1] at hb
      cases hpar : parse_alignment f.lines with
      | error e => simp [hpar] at hb
      | ok stats =>
        simp only [hpar] at hb
        cases hfs : floatOfScore stats.score with
        | error e => simp [hfs] at hb
        | ok sc => simp [hfs] at hb
    · by_cases h2 : s2 = []
      · rw [scafSeqLoop_two_right s1 s2 h1 h2] at hb
        cases hpar : parse_alignment f.lines with
        | error e => simp [hpar] at hb
        | ok stats =>
          simp only [hpar] at hb
          cases hfs : floatOfScore stats.score with
          | error e => simp [hfs] at hb
          | ok sc => simp [hfs] at hb
      · rw [scafSeqLoop_two s1 s2 h1 h2] at hb
        cases hcalc : calculate_exact_alignment s1 s2 with
        | error e => simp [hcalc] at hb
        | ok g =>
          simp only [hcalc] at hb
          cases hpar : parse_alignment f.lines with
          | error e => simp [hpar] at hb
          | ok stats =>
            simp only [hpar] at hb
            cases hfs : floatOfScore stats.score with
            | error e => simp [hfs] at hb
            | ok sc =>
              simp only [hfs] at hb
              by_cases hb0 : (s2.filter (fun ch => ch != '-')).length = 0
              · simp [hb0] at hb
              · simp only [if_neg hb0] at hb
                injection hb with h3
                exact ⟨g, by rw [← hngs, ← h3]⟩

/-- C9: in each worker, provided every retained report file is non-empty
and its alignment holds exactly two sequences, the per-locus parallel
candidate lists (seven for `spades_worker`; those seven plus the
flattened `nogap_id` list for `scaffold_worker`) all end the scan with
equal length - one entry per retained file - so the argmax index
computed under `BestOnly` is in bounds for every list. -/
theorem parallel_lists_stay_in_sync
    (dir p : String) (fsP fsC : List SeqFile) (stp : SpSt) (stc : ScSt)
    (hsp : spadesScan dir p spInit fsP = Except.ok stp)
    (hsc : scafScan dir p scInit fsC = Except.ok stc)
    (hC : ∀ f ∈ fsC, retainedScaf p f = true →
      f.size ≠ 0 ∧ ∃ s1 s2, f.alignio = some [s1, s2]) :
    (stp.isos.length = (fsP.filter (fun f => retainedSp p f)).length
      ∧ stp.scores.length = stp.isos.length
      ∧ stp.ids.length = stp.isos.length
      ∧ stp.covs.length = stp.isos.length
      ∧ stp.lens.length = stp.isos.length
      ∧ stp.refLens.length = stp.isos.length
      ∧ stp.paths.length = stp.isos.length)
    ∧ (stc.isos.length = (fsC.filter (fun f => retainedScaf p f)).length
      ∧ stc.scores.length = stc.isos.length
      ∧ stc.ids.length = stc.isos.length
      ∧ stc.covs.length = stc.isos.length
      ∧ stc.lens.length = stc.isos.length
      ∧ stc.refLens.length = stc.isos.length
      ∧ stc.paths.length = stc.isos.length
      ∧ stc.nogapIds.length = stc.isos.length)
    ∧ (stp.ids ≠ [] → ∃ i, spadesBestIdx stp = some i
        ∧ i < stp.isos.length ∧ i < stp.ids.length ∧ i < stp.covs.length
        ∧ i < stp.lens.length ∧ i < stp.refLens.length ∧ i < stp.paths.length)
    ∧ (stc.nogapIds ≠ [] → ∃ j, scafBestIdx stc = some j
        ∧ j < stc.isos.length ∧ j < stc.ids.length ∧ j < stc.covs.length
        ∧ j < stc.lens.length ∧ j < stc.refLens.length ∧ j < stc.paths.length
        ∧ j < stc.nogapIds.length) := by
  have hvP := spadesScan_ok_valid dir p fsP spInit stp hsp
  have hvC := scafScan_ok_valid dir p fsC scInit stc hsc
  rw [spadesScan_char dir p fsP spInit hvP] at hsp
  rw [scafScan_char dir p fsC scInit hvC] at hsc
  have hstp := Except.ok.inj hsp
  have hstc := Except.ok.inj hsc
  subst hstp
  subst hstc
  have hlenP := spades_filterMap_length dir p fsP hvP
  have hlenC := scaf_filterMap_length dir p fsC hvC
  have hfilt : fsC.filter (fun f => scafKept p f)
      = fsC.filter (fun f => retainedScaf p f) := by
    apply List.filter_congr
    intro f hf
    cases hr : retainedScaf p f with
    | false => simp [scafKept, hr]
    | true => simp [scafKept, hr, (hC f hf hr).1]
  have hsingle : ∀ x ∈ (fsC.filterMap (scafCandOf dir p)).map (fun pr => pr.1),
      ∃ g, x = [g] := by
    intro x hx
    obtain ⟨pr, hpr, hx1⟩ := List.mem_map.mp hx
    obtain ⟨f, hf, hcf⟩ := List.mem_filterMap.mp hpr
    have hk := scafCandOf_some_kept hcf
    unfold scafKept at hk
    rw [Bool.and_eq_true] at hk
    obtain ⟨_, s1, s2, hseq⟩ := hC f hf hk.1
    have hfound : scafProc dir p f = ScOut.found pr.1 pr.2 := by
      exact scafCandOf_some_iff.mp hcf
    obtain ⟨g, hg⟩ := scafFound_ngs1 hseq hfound
    exact ⟨g, by rw [← hx1, hg]⟩
  have hflat : ((fsC.filterMap (scafCandOf dir p)).map (fun pr => pr.1)).flatten.length
      = (fsC.filterMap (scafCandOf dir p)).length := by
    rw [flatten_singletons _ hsingle, List.length_map, List.length_map]
  refine ⟨?_, ?_, ?_, ?_⟩
  · simp only [spBulk, spInit, List.nil_append, List.length_map]
    exact ⟨hlenP, trivial, trivial, trivial, trivial, trivial, trivial⟩
  · simp only [scBulk, scInit, List.nil_append, List.length_map]
    refine ⟨by rw [hlenC, hfilt], trivial, trivial, trivial, trivial, trivial, trivial, hflat⟩
  · intro hne
    obtain ⟨m, hm, hmem⟩ := pyMax_mem ratLt _ hne
    obtain ⟨i, hi, hlt⟩ := pyIndexOf_mem _ m hmem
    have hbest : spadesBestIdx (spBulk spInit (fsP.filterMap (spadesCandOf dir p))
        (spInit.aligned || fsP.any (fun f => retainedSp p f))) = some i := by
      unfold spadesBestIdx
      rw [hm]
      exact hi
    refine ⟨i, hbest, ?_, ?_, ?_, ?_, ?_, ?_⟩
    all_goals
      simp only [spBulk, spInit, List.nil_append, List.length_map] at hlt ⊢
      exact hlt
  · intro hne
    obtain ⟨m, hm, hmem⟩ := pyMax_mem strLt _ hne
    obtain ⟨j, hj, hlt⟩ := pyIndexOf_mem _ m hmem
    have hbest : scafBestIdx (scBulk scInit (fsC.filterMap (scafCandOf dir p))
        (scInit.aligned || fsC.any (fun f => retainedScaf p f))) = some j := by
      unfold scafBestIdx
      rw [hm]
      exact hj
    have hlt2 : j < (fsC.filterMap (scafCandOf dir p)).length := by
      simp only [scBulk, scInit, List.nil_append] at hlt
      rw [hflat] at hlt
      exact hlt
    refine ⟨j, hbest, ?_, ?_, ?_, ?_, ?_, ?_, ?_⟩
    all_goals
      simp only [scBulk, scInit, List.nil_append, List.length_map]
    · exact hlt2
    · exact hlt2
    · exact hlt2
    · exact hlt2
    · exact hlt2
    · exact hlt2
    · simp only [scBulk, scInit, List.nil_append] at hlt
      exact hlt

/-- C9 witness: one retained well-formed report per worker; both scans
succeed, every parallel list has length one, and both `BestOnly` argmax
indices are in bounds. -/
theorem parallel_lists_stay_in_sync_witness :
    spadesScan "d" "" spInit [exGoodSp]
        = Except.ok ⟨["G"], [0], [0], [1], [4], [4], ["d/G.trimmed_align.txt"], true⟩
    ∧ scafScan "d" "" scInit [exGoodSc]
        = Except.ok ⟨["A"], [0], [0], [1], [4], [4],
            ["d/A.Scaffold.trimmed_align.txt"], ["100.00"], true⟩
    ∧ ∃ i j,
        spadesBestIdx ⟨["G"], [0], [0], [1], [4], [4], ["d/G.trimmed_align.txt"], true⟩
          = some i ∧ i < 1
        ∧ scafBestIdx ⟨["A"], [0], [0], [1], [4], [4],
            ["d/A.Scaffold.trimmed_align.txt"], ["100.00"], true⟩ = some j ∧ j < 1 := by
  have hsp : spadesScan "d" "" spInit [exGoodSp]
      = Except.ok ⟨["G"], [0], [0], [1], [4], [4], ["d/G.trimmed_align.txt"], true⟩ := by
    decide
  have hsc : scafScan "d" "" scInit [exGoodSc]
      = Except.ok ⟨["A"], [0], [0], [1], [4], [4],
          ["d/A.Scaffold.trimmed_align.txt"], ["100.00"], true⟩ := by
    decide
  have hC : ∀ f ∈ [exGoodSc], retainedScaf "" f = true →
      f.size ≠ 0 ∧ ∃ s1 s2, f.alignio = some [s1, s2] := by
    intro f hf _
    have hfe : f = exGoodSc := List.mem_singleton.mp hf
    subst hfe
    exact ⟨by decide, "ACGT".toList, "ACGT".toList, rfl⟩
  have hmain := parallel_lists_stay_in_sync "d" "" [exGoodSp] [exGoodSc] _ _ hsp hsc hC
  obtain ⟨i, hbi, h1, h2, h3, h4, h5, hip⟩ := hmain.2.2.1 (by decide)
  obtain ⟨j, hbj, g1, g2, g3, g4, g5, hjp, g6⟩ := hmain.2.2.2 (by decide)
  exact ⟨hsp, hsc, i, j, hbi, hip, hbj, hjp⟩
